import Mathlib

/-!
# Verification of the repository preprocessing / semantic indexing pipeline

A shallow embedding, in Lean 4, of the core services of a code-analysis
system: the code chunker (`code_chunker.py`), the file processor
(`file_processor.py`), the semantic-search indexer (`semantic_search.py`),
the repository analyzer (`repo_analyser.py`) and the progress tracker
(`progress_tracker.py`), together with proofs and refutations of the
behavioural properties stated in the system's specification.

Modelling conventions:
* Python `int` is `Int` (or `Nat` where the source value is provably
  nonnegative), Python `float` arithmetic is modelled exactly over `ℚ`
  (every concrete value appearing in a theorem below is exactly
  representable in binary floating point, so the idealization does not
  change any compared outcome);
* fallible operations return `Option`;
* external libraries (`hashlib.md5`, the sentence-transformer embedding
  model) enter as explicit function parameters of which nothing is
  assumed; the FAISS flat L2 index is modelled by its documented
  behaviour (exact squared-L2 nearest-neighbour search, ascending
  distances, `-1` labels padding the result when fewer than `k` vectors
  are stored).
-/

namespace CodeAnalysis

/-! ## Python string / list primitives -/

/-- Python list indexing `xs[i]`: a nonnegative index counts from the
front, a negative index counts from the back (`xs[-1]` is the last
element).  An out-of-range access raises `IndexError` in Python and is
`none` here. -/
def pyGet {α : Type} (xs : List α) (i : Int) : Option α :=
  if 0 ≤ i then xs[i.toNat]?
  else if (-i).toNat ≤ xs.length then xs[xs.length - (-i).toNat]?
  else none

/-- The characters Python's `str.strip`, `str.split()` and the regex
class `\s` treat as whitespace (ASCII range). -/
def isPyWs (c : Char) : Bool :=
  c == ' ' || c == '\t' || c == '\n' || c == '\r' || c == '\x0b' || c == '\x0c'

/-- A character of the regex class `\w` (ASCII range): letters, digits
and underscore. -/
def isWordChar (c : Char) : Bool :=
  c.isAlphanum || c == '_'

/-- `content.split('\n')` — split on every single newline, keeping empty
pieces; the result always has at least one element. -/
def splitNlAux : List Char → List Char → List String
  | [], acc => [String.mk acc.reverse]
  | c :: cs, acc =>
    if c == '\n' then String.mk acc.reverse :: splitNlAux cs []
    else splitNlAux cs (c :: acc)

/-- `content.split('\n')`. -/
def pySplitNl (s : String) : List String := splitNlAux s.data []

/-- `s.split()` — split on runs of whitespace, discarding empty pieces. -/
def splitWsAux : List Char → List Char → List String
  | [], acc => if acc.isEmpty then [] else [String.mk acc.reverse]
  | c :: cs, acc =>
    if isPyWs c then
      if acc.isEmpty then splitWsAux cs []
      else String.mk acc.reverse :: splitWsAux cs []
    else splitWsAux cs (c :: acc)

/-- `s.split()`. -/
def pySplitWs (s : String) : List String := splitWsAux s.data []

/-- `s.strip()` — drop leading and trailing whitespace. -/
def pyStrip (s : String) : String :=
  String.mk (((s.data.dropWhile isPyWs).reverse.dropWhile isPyWs).reverse)

/-- Fuel-driven core of `str.count`: count non-overlapping occurrences of
`needle` scanning left to right.  The fuel is an upper bound on the scan
length, so `pyCount` below never exhausts it. -/
def countOccurAux (needle : List Char) : Nat → List Char → Nat
  | 0, _ => 0
  | _ + 1, [] => 0
  | fuel + 1, c :: cs =>
    if needle.isPrefixOf (c :: cs) then
      1 + countOccurAux needle fuel ((c :: cs).drop needle.length)
    else countOccurAux needle fuel cs

/-- Python `hay.count(needle)` (an empty needle counts `len(hay) + 1`
matches, as in Python). -/
def pyCount (hay needle : String) : Nat :=
  match needle.data with
  | [] => hay.length + 1
  | n => countOccurAux n (hay.data.length + 1) hay.data

/-- Python `needle in hay` — substring containment. -/
def strContains (hay needle : String) : Bool :=
  (List.range (hay.data.length + 1)).any fun i =>
    needle.data.isPrefixOf (hay.data.drop i)

/-- Python `hay.endswith(needle)`. -/
def strEndsWith (hay needle : String) : Bool :=
  needle.data.isSuffixOf hay.data

/-- Python `s.startswith(needle)`. -/
def strStartsWith (s needle : String) : Bool :=
  needle.data.isPrefixOf s.data

/-- Python `s.lower()` (ASCII case mapping, which covers every character
this code base feeds it). -/
def strLower (s : String) : String :=
  String.mk (s.data.map Char.toLower)

/-- Python slice `xs[a:b]` for nonnegative bounds. -/
def pySlice {α : Type} (xs : List α) (a b : Nat) : List α :=
  (xs.drop a).take (b - a)

/-! ## CodeChunker (`code_chunker.py`): data model -/

/-- One parameter record of a Python function chunk
(`{"name": ..., "type"?: ...}`). -/
structure PyParam where
  name : String
  ptype : Option String
deriving DecidableEq

/-- A code chunk, as assembled by `CodeChunker`.  The Python code builds
dictionaries whose key sets differ per strategy; keys absent for a given
strategy are modelled as `Option` fields left `none` / list fields left
empty. -/
structure Chunk where
  id : String
  file_path : String
  chunk_type : String
  name : String
  signature : String
  start_line : Nat
  end_line : Nat
  code : String
  /-- Present for Python and JavaScript chunks; the generic strategy
  emits no docstring key. -/
  docstring : Option String := none
  parameters : List PyParam := []
  return_type : Option String := none
  calls_functions : List String := []
  base_classes : List String := []
  methods : List String := []
  parent_class : Option String := none
  is_async : Option Bool := none
  /-- The `extends` key of JavaScript class chunks. -/
  extendsName : Option String := none
  complexity : Nat
  token_count : Nat
  keywords : List String
deriving DecidableEq

/-- `CodeChunker._generate_chunk_id`: the MD5 hex digest of the string
`"{file_path}:{name}:{line}"`, truncated to 16 characters.  MD5 itself
lives in Python's `hashlib` (an external library); it enters the model as
the explicit digest parameter `md5hex`, of which nothing is assumed, so
every theorem below holds for the real digest in particular. -/
def generateChunkId (md5hex : String → String) (file_path name : String)
    (line : Nat) : String :=
  (md5hex (file_path ++ ":" ++ name ++ ":" ++ toString line)).take 16

/-- The decision keywords of `CodeChunker._calculate_simple_complexity`. -/
def simpleComplexityKeywords : List String :=
  ["if", "else", "for", "while", "switch", "case",
   "try", "catch", "finally", "&&", "||"]

/-- `CodeChunker._calculate_simple_complexity`: one plus the number of
occurrences of each decision keyword/operator. -/
def simpleComplexity (code : String) : Nat :=
  (simpleComplexityKeywords.map fun kw => pyCount code kw).sum + 1

/-- The stopword set of `CodeChunker._extract_keywords`. -/
def commonWords : List String :=
  ["the", "and", "for", "that", "this", "with", "from",
   "have", "been", "are", "was", "were", "will", "can"]

/-- `CodeChunker._extract_keywords`: lowercase code plus docstring, map
punctuation to spaces, split on whitespace, keep words longer than three
characters that are not stopwords, deduplicate, cap at 20.  Python
collects the words into a `set` whose iteration order is unspecified;
the model keeps first-occurrence order, which fixes one of the orders the
Python code may produce (no claim below depends on the order). -/
def extractKeywords (code docstring : String) : List String :=
  let text := strLower (code ++ " " ++ docstring)
  let cleaned := String.mk (text.data.map fun c =>
    if !(isWordChar c || isPyWs c) then ' ' else c)
  (((pySplitWs cleaned).filter fun w =>
      decide (w.length > 3) && !(commonWords.contains w)).dedup).take 20

/-! ## CodeChunker: the generic (blank-line block) strategy -/

/-- Leftmost match of the separator regex `\n\s*\n` at the head of the
character list: a newline, a greedy run of whitespace, then a final
newline (the greedy `\s*` backtracks to the last newline inside the
whitespace run).  Returns the matched length. -/
def matchBlankSep : List Char → Option Nat
  | [] => none
  | c :: rest =>
    if c == '\n' then
      let run := rest.takeWhile isPyWs
      match ((run.enum.filter fun p => p.2 == '\n').map fun p => p.1).getLast? with
      | some m => some (m + 2)
      | none => none
    else none

/-- Fuel-driven core of `re.split(r'\n\s*\n', content)`: scan left to
right, cutting at each leftmost non-overlapping separator match. -/
def splitBlankAux : Nat → List Char → List Char → List String
  | 0, cs, acc => [String.mk (acc.reverse ++ cs)]
  | _ + 1, [], acc => [String.mk acc.reverse]
  | fuel + 1, c :: cs, acc =>
    match matchBlankSep (c :: cs) with
    | some len => String.mk acc.reverse :: splitBlankAux fuel ((c :: cs).drop len) []
    | none => splitBlankAux fuel cs (c :: acc)

/-- `re.split(r'\n\s*\n', content)` — the block boundaries of
`CodeChunker._chunk_generic`. -/
def pySplitBlankLines (s : String) : List String :=
  splitBlankAux (s.data.length + 1) s.data []

/-- The per-block loop of `CodeChunker._chunk_generic`, carrying the
running `current_line` counter. -/
def chunkGenericAux (md5hex : String → String) (file_path : String) :
    List String → Nat → List Chunk
  | [], _ => []
  | block :: rest, current_line =>
    if (pyStrip block).length < 20 then
      chunkGenericAux md5hex file_path rest (current_line + pyCount block "\n" + 2)
    else
      let linesInBlock := pyCount block "\n" + 1
      { id := generateChunkId md5hex file_path "block" current_line
        file_path := file_path
        chunk_type := "block"
        name := "block_" ++ toString current_line
        signature := "Code block at line " ++ toString current_line
        start_line := current_line
        end_line := current_line + linesInBlock - 1
        code := block
        complexity := simpleComplexity block
        token_count := (pySplitWs block).length
        keywords := extractKeywords block "" } ::
      chunkGenericAux md5hex file_path rest (current_line + linesInBlock + 2)

/-- `CodeChunker._chunk_generic`: split the content on blank-line
boundaries, drop blocks whose stripped length is below 20 characters,
emit each surviving block as a `block` chunk. -/
def chunkGeneric (md5hex : String → String) (file_path content : String) :
    List Chunk :=
  chunkGenericAux md5hex file_path (pySplitBlankLines content) 1

/-! ## CodeChunker: the JavaScript/TypeScript (regex) strategy

`CodeChunker._chunk_javascript` locates units with three `re` patterns.
Note the patterns as written in the source contain the literal text
`\x7b\x7b\x7b\x7b(` … `)\x7d\x7d\x7d\x7d` (four literal opening and four
literal closing braces around the parameter list — Python's `re` treats a
brace that opens no valid quantifier as a literal character).  The
matchers below implement exactly those patterns, character by character:
greedy `\w+`/`\s+` runs (no backtracking is observable for these
patterns) and a lazy `(.*?)` that stops at the first position where the
rest of the pattern matches, with `.` not crossing a newline. -/

/-- Match a literal string at the head; return the rest. -/
def eatLit (lit : List Char) (s : List Char) : Option (List Char) :=
  if lit.isPrefixOf s then some (s.drop lit.length) else none

/-- Match `\s+` (one or more whitespace characters); return the rest. -/
def eatWs1 (s : List Char) : Option (List Char) :=
  let run := s.takeWhile isPyWs
  if run.isEmpty then none else some (s.drop run.length)

/-- Match `\s*`; return the rest. -/
def eatWs0 (s : List Char) : List Char :=
  s.drop (s.takeWhile isPyWs).length

/-- Match `\w+` (one or more word characters); return the run and the
rest. -/
def eatWord1 (s : List Char) : Option (String × List Char) :=
  let run := s.takeWhile isWordChar
  if run.isEmpty then none else some (String.mk run, s.drop run.length)

/-- The lazy group `(.*?)\)\x7d\x7d\x7d\x7d` of the function patterns:
scan forward for the first `)` followed by four closing braces, `.` never
matching a newline.  Returns the captured text and the rest after the
closing braces. -/
def eatLazyParams : List Char → List Char → Option (String × List Char)
  | [], _ => none
  | c :: cs, acc =>
    if c == ')' && ['\x7d', '\x7d', '\x7d', '\x7d'].isPrefixOf cs then
      some (String.mk acc.reverse, cs.drop 4)
    else if c == '\n' then none
    else eatLazyParams cs (c :: acc)

/-- Attempt the function pattern
`(async\s+)?function\s+(\w+)\s*\x7b\x7b\x7b\x7b\((.*?)\)\x7d\x7d\x7d\x7d\s*\x7b`
at the head of `s`.  Returns `(is_async, name, params, rest)`. -/
def matchFuncAt (s : List Char) : Option (Bool × String × String × List Char) := do
  let (isAsync, s1) :=
    match eatLit "async".data s >>= eatWs1 with
    | some r => (true, r)
    | none => (false, s)
  let s2 ← eatLit "function".data s1
  let s3 ← eatWs1 s2
  let (name, s4) ← eatWord1 s3
  let s5 := eatWs0 s4
  let s6 ← eatLit ['\x7b', '\x7b', '\x7b', '\x7b', '('] s5
  let (params, s7) ← eatLazyParams s6 []
  let s8 := eatWs0 s7
  let s9 ← eatLit ['\x7b'] s8
  pure (isAsync, name, params, s9)

/-- Attempt the arrow-function pattern
`(const|let|var)\s+(\w+)\s*=\s*(?:async\s+)?\x7b\x7b\x7b\x7b\((.*?)\)\x7d\x7d\x7d\x7d\s*=>\s*\x7b`
at the head of `s`.  Returns `(name, params, rest)`. -/
def matchArrowAt (s : List Char) : Option (String × String × List Char) := do
  let s1 ←
    match eatLit "const".data s with
    | some r => some r
    | none =>
      match eatLit "let".data s with
      | some r => some r
      | none => eatLit "var".data s
  let s2 ← eatWs1 s1
  let (name, s3) ← eatWord1 s2
  let s4 := eatWs0 s3
  let s5 ← eatLit ['='] s4
  let s6 := eatWs0 s5
  let s7 :=
    match eatLit "async".data s6 >>= eatWs1 with
    | some r => r
    | none => s6
  let s8 ← eatLit ['\x7b', '\x7b', '\x7b', '\x7b', '('] s7
  let (params, s9) ← eatLazyParams s8 []
  let s10 := eatWs0 s9
  let s11 ← eatLit ['=', '>'] s10
  let s12 := eatWs0 s11
  let s13 ← eatLit ['\x7b'] s12
  pure (name, params, s13)

/-- Attempt the class pattern
`class\s+(\w+)(?:\s+extends\s+(\w+))?\s*\x7b` at the head of `s`.
Returns `(name, extends?, rest)`. -/
def matchClassAt (s : List Char) : Option (String × Option String × List Char) := do
  let s1 ← eatLit "class".data s
  let s2 ← eatWs1 s1
  let (name, s3) ← eatWord1 s2
  let tryExt : Option (String × List Char) := do
    let t1 ← eatWs1 s3
    let t2 ← eatLit "extends".data t1
    let t3 ← eatWs1 t2
    eatWord1 t3
  match tryExt with
  | some (ext, s4) =>
    let s5 := eatWs0 s4
    let s6 ← eatLit ['\x7b'] s5
    pure (name, some ext, s6)
  | none =>
    let s5 := eatWs0 s3
    let s6 ← eatLit ['\x7b'] s5
    pure (name, none, s6)

/-- Fuel-driven `re.finditer`: try the matcher at every position, left to
right; on a match, record the start position and the groups and resume
after the match (matches never overlap). -/
def finditerAux {β : Type} (matchAt : List Char → Option (β × List Char)) :
    Nat → List Char → Nat → List (Nat × β)
  | 0, _, _ => []
  | _ + 1, [], _ => []
  | fuel + 1, s@(_ :: cs), pos =>
    match matchAt s with
    | some (groups, rest) =>
      (pos, groups) :: finditerAux matchAt fuel rest (pos + (s.length - rest.length))
    | none => finditerAux matchAt fuel cs (pos + 1)

/-- `re.finditer(pattern, content)` over a whole string. -/
def finditer {β : Type} (matchAt : List Char → Option (β × List Char))
    (content : String) : List (Nat × β) :=
  finditerAux matchAt (content.data.length + 1) content.data 0

/-- The per-line brace scan of `CodeChunker._find_closing_brace`: walk the
characters of one line updating `(brace_count, started)`; signal `none`
when `started` holds and the count returns to zero. -/
def braceLine : List Char → Int → Bool → Option (Int × Bool)
  | [], n, st => some (n, st)
  | c :: cs, n, st =>
    if c == '\x7b' then braceLine cs (n + 1) true
    else if c == '\x7d' then
      if st && n - 1 == 0 then none else braceLine cs (n - 1) st
    else braceLine cs n st

/-- The line loop of `CodeChunker._find_closing_brace`, from 0-based line
index `i` onward; returns the 0-based index of the line where the braces
balance. -/
def findClosingFrom : List String → Nat → Int → Bool → Option Nat
  | [], _, _, _ => none
  | l :: rest, i, n, st =>
    match braceLine l.data n st with
    | none => some i
    | some (n', st') => findClosingFrom rest (i + 1) n' st'

/-- `CodeChunker._find_closing_brace(lines, start_line)`: simple brace
counting from the 0-based index `startIdx`; when no balanced close is
found, fall back to `min(start_line + 50, len(lines) - 1)`.  The returned
value is a 0-based line index. -/
def findClosingBrace (lines : List String) (startIdx : Nat) : Nat :=
  match findClosingFrom (lines.drop startIdx) startIdx 0 false with
  | some i => i
  | none => min (startIdx + 50) (lines.length - 1)

/-- The backward collection loop of `CodeChunker._extract_jsdoc`: from
0-based line index `i` downwards, prepend stripped lines until one starts
with `/**` (inclusive). -/
def jsdocCollect (lines : List String) : Nat → List String
  | 0 => [pyStrip (lines.getD 0 "")]
  | i' + 1 =>
    let line := pyStrip (lines.getD (i' + 1) "")
    if strStartsWith line "/**" then [line]
    else jsdocCollect lines i' ++ [line]

/-- The backward scan loop of `CodeChunker._extract_jsdoc`: skip blank
and `//` lines upward; on a line starting with `*/` collect the comment
block; any other line stops the scan with an empty result. -/
def jsdocScan (lines : List String) : Nat → String
  | 0 =>
    let line := pyStrip (lines.getD 0 "")
    if strStartsWith line "*/" then String.intercalate "\n" (jsdocCollect lines 0)
    else ""
  | i' + 1 =>
    let line := pyStrip (lines.getD (i' + 1) "")
    if strStartsWith line "*/" then String.intercalate "\n" (jsdocCollect lines (i' + 1))
    else if line == "" || strStartsWith line "//" then jsdocScan lines i'
    else ""

/-- `CodeChunker._extract_jsdoc(lines, line_num)`: scan upward from the
line above `line_num`; when `line_num = 0` the Python loop index starts
at `-1` and the loop body never runs. -/
def extractJsdoc (lines : List String) (line_num : Nat) : String :=
  match line_num with
  | 0 => ""
  | n + 1 => jsdocScan lines n

/-- `CodeChunker._extract_js_function` (also covering the arrow and class
variants' shared geometry): `start_line` is 1-based (`content[:start].count('\n') + 1`),
while `end_line` is the 0-based line index returned by
`_find_closing_brace` — the stored pair mixes the two conventions. -/
def jsChunkLines (content : String) (startPos : Nat) : Nat × Nat :=
  let start_line := pyCount (String.mk (content.data.take startPos)) "\n" + 1
  (start_line, findClosingBrace (pySplitNl content) (start_line - 1))

/-- `CodeChunker._extract_js_function`. -/
def extractJsFunction (md5hex : String → String) (file_path content : String)
    (m : Nat × Bool × String × String) : Chunk :=
  let (startPos, is_async, name, params) := m
  let (start_line, end_line) := jsChunkLines content startPos
  let lines := pySplitNl content
  let code := String.intercalate "\n" (pySlice lines (start_line - 1) (end_line + 1))
  let docstring := extractJsdoc lines (start_line - 1)
  { id := generateChunkId md5hex file_path name start_line
    file_path := file_path
    chunk_type := "function"
    name := name
    signature := "function " ++ name ++ "(" ++ params ++ ")"
    start_line := start_line
    end_line := end_line
    code := code
    docstring := some docstring
    is_async := some is_async
    complexity := simpleComplexity code
    token_count := (pySplitWs code).length
    keywords := extractKeywords code docstring }

/-- `CodeChunker._extract_js_arrow_function`. -/
def extractJsArrowFunction (md5hex : String → String) (file_path content : String)
    (m : Nat × String × String) : Chunk :=
  let (startPos, name, params) := m
  let (start_line, end_line) := jsChunkLines content startPos
  let lines := pySplitNl content
  let code := String.intercalate "\n" (pySlice lines (start_line - 1) (end_line + 1))
  let docstring := extractJsdoc lines (start_line - 1)
  { id := generateChunkId md5hex file_path name start_line
    file_path := file_path
    chunk_type := "function"
    name := name
    signature := "const " ++ name ++ " = (" ++ params ++ ") =>"
    start_line := start_line
    end_line := end_line
    code := code
    docstring := some docstring
    complexity := simpleComplexity code
    token_count := (pySplitWs code).length
    keywords := extractKeywords code docstring }

/-- `CodeChunker._extract_js_class`. -/
def extractJsClass (md5hex : String → String) (file_path content : String)
    (m : Nat × String × Option String) : Chunk :=
  let (startPos, name, ext) := m
  let (start_line, end_line) := jsChunkLines content startPos
  let lines := pySplitNl content
  let code := String.intercalate "\n" (pySlice lines (start_line - 1) (end_line + 1))
  let docstring := extractJsdoc lines (start_line - 1)
  { id := generateChunkId md5hex file_path name start_line
    file_path := file_path
    chunk_type := "class"
    name := name
    signature := "class " ++ name
    start_line := start_line
    end_line := end_line
    code := code
    docstring := some docstring
    extendsName := ext
    complexity := simpleComplexity code
    token_count := (pySplitWs code).length
    keywords := extractKeywords code docstring }

/-- `CodeChunker._chunk_javascript`: named functions, then arrow
functions, then classes, in pattern order. -/
def chunkJavascript (md5hex : String → String) (file_path content : String) :
    List Chunk :=
  ((finditer (fun s => (matchFuncAt s).map fun (a, n, p, r) => ((a, n, p), r)) content).map
      (extractJsFunction md5hex file_path content)) ++
  ((finditer (fun s => (matchArrowAt s).map fun (n, p, r) => ((n, p), r)) content).map
      (extractJsArrowFunction md5hex file_path content)) ++
  ((finditer (fun s => (matchClassAt s).map fun (n, e, r) => ((n, e), r)) content).map
      (extractJsClass md5hex file_path content))

/-! ## CodeChunker: the Python (AST) strategy

The CPython `ast` module is external; its parse trees are modelled as
rose trees of node kinds.  Only the node distinctions `CodeChunker`
inspects are kept: function and class definitions carry the attributes
the chunker reads (`ast.unparse` of an annotation is modelled as the
rendered string stored in the node, `ast.get_docstring` as the stored
docstring), the decision-point kinds are bare tags, and every other
CPython node maps to `otherNode`.  A `BoolOp` produced by the parser
always has at least two operand values, which the model enforces by
storing the operand count as `2 + extraOperands`. -/

/-- One `ast.arg`: argument name and optional rendered annotation. -/
structure PyArg where
  name : String
  ann : Option String
deriving DecidableEq

/-- The node distinctions `CodeChunker` inspects. -/
inductive PyKind where
  | functionDef (name : String) (lineno : Nat) (endLineno : Option Nat)
      (args : List PyArg) (returns : Option String) (docstring : Option String)
  | classDef (name : String) (lineno : Nat) (endLineno : Option Nat)
      (bases : List String) (docstring : Option String)
  | ifStmt
  | forStmt
  | whileStmt
  | tryStmt
  | exceptHandler
  | withStmt
  | boolOp (extraOperands : Nat)
  | callNamed (fn : String)
  | callAttr (fn : String)
  | otherNode
deriving DecidableEq

/-- A parse-tree node: a kind plus child nodes. -/
inductive PyNode where
  | node (kind : PyKind) (children : List PyNode)

/-- The kind of a node. -/
def PyNode.kind : PyNode → PyKind
  | .node k _ => k

/-- The children of a node. -/
def PyNode.children : PyNode → List PyNode
  | .node _ cs => cs

theorem sum_map_sizeOf_lt (l : List PyNode) : (l.map sizeOf).sum < sizeOf l := by
  induction l with
  | nil => simp
  | cons c cs ih => simp only [List.map_cons, List.sum_cons, List.cons.sizeOf_spec]; omega

/-- `ast.walk(node)` over a queue of nodes: every node in the forest, in
breadth-first order (each dequeued node is emitted and its children are
appended to the queue). -/
def pyWalk : List PyNode → List PyNode
  | [] => []
  | .node k cs :: rest => .node k cs :: pyWalk (rest ++ cs)
termination_by l => (l.map sizeOf).sum
decreasing_by
  simp only [List.map_append, List.sum_append, List.map_cons, List.sum_cons]
  have h := sum_map_sizeOf_lt cs
  simp only [PyNode.node.sizeOf_spec] at *
  omega

/-- The complexity contribution of one walked node in
`CodeChunker._calculate_ast_complexity`: decision points count 1, a
boolean operation counts `len(values) - 1`. -/
def kindWeight : PyKind → Nat
  | .ifStmt | .forStmt | .whileStmt | .tryStmt | .exceptHandler | .withStmt => 1
  | .boolOp extra => extra + 1
  | _ => 0

/-- `CodeChunker._calculate_ast_complexity`: base 1 plus the contribution
of every node reached by `ast.walk`. -/
def astComplexity (n : PyNode) : Nat :=
  1 + ((pyWalk [n]).map fun m => kindWeight m.kind).sum

/-- `CodeChunker._extract_function_calls`: the names of all `ast.Call`
nodes under `node` (direct names and attribute accesses), deduplicated.
Python materializes the list through a `set`, whose iteration order is
unspecified; the model keeps first-occurrence order. -/
def extractFunctionCalls (n : PyNode) : List String :=
  ((pyWalk [n]).filterMap fun m =>
    match m.kind with
    | .callNamed f => some f
    | .callAttr f => some f
    | _ => none).dedup

/-- `CodeChunker._extract_python_function`: emitted for every
`ast.FunctionDef` reached by the walk.  The `try` around the source-slice
computation cannot fail (Python list slicing never raises), so the
`None` branch of the Python function is unreachable; `none` is returned
only on a non-function node, mirroring the caller's `if chunk:` guard. -/
def extractPythonFunction (md5hex : String → String) (file_path content : String)
    (n : PyNode) : Option Chunk :=
  match n.kind with
  | .functionDef name lineno endLineno args returns doc =>
    let start_line := lineno
    let end_line := endLineno.getD start_line
    let code := String.intercalate "\n" (pySlice (pySplitNl content) (start_line - 1) end_line)
    let params := args.map fun a => PyParam.mk a.name a.ann
    let docstring := doc.getD ""
    let signature := "def " ++ name ++ "(" ++
      String.intercalate ", " (params.map PyParam.name) ++ ")"
    some
      { id := generateChunkId md5hex file_path name start_line
        file_path := file_path
        chunk_type := "function"
        name := name
        signature := signature
        start_line := start_line
        end_line := end_line
        code := code
        docstring := some docstring
        parameters := params
        return_type := some (returns.getD "None")
        calls_functions := extractFunctionCalls n
        complexity := astComplexity n
        token_count := (pySplitWs code).length
        keywords := extractKeywords code docstring }
  | _ => none

/-- `CodeChunker._extract_python_class`. -/
def extractPythonClass (md5hex : String → String) (file_path content : String)
    (n : PyNode) : Option Chunk :=
  match n.kind with
  | .classDef name lineno endLineno bases doc =>
    let start_line := lineno
    let end_line := endLineno.getD start_line
    let code := String.intercalate "\n" (pySlice (pySplitNl content) (start_line - 1) end_line)
    let docstring := doc.getD ""
    some
      { id := generateChunkId md5hex file_path name start_line
        file_path := file_path
        chunk_type := "class"
        name := name
        signature := "class " ++ name
        start_line := start_line
        end_line := end_line
        code := code
        docstring := some docstring
        base_classes := bases
        methods := n.children.filterMap fun item =>
          match item.kind with
          | .functionDef mname _ _ _ _ _ => some mname
          | _ => none
        complexity := astComplexity n
        token_count := (pySplitWs code).length
        keywords := extractKeywords code docstring }
  | _ => none

/-- `CodeChunker._extract_python_method`: a function chunk re-tagged as a
method, with the parent class recorded and the id derived from
`"{class_name}.{method_name}"`. -/
def extractPythonMethod (md5hex : String → String) (class_name file_path content : String)
    (n : PyNode) : Option Chunk :=
  (extractPythonFunction md5hex file_path content n).map fun c =>
    match n.kind with
    | .functionDef name lineno _ _ _ _ =>
      { c with
        chunk_type := "method"
        parent_class := some class_name
        id := generateChunkId md5hex file_path (class_name ++ "." ++ name) lineno }
    | _ => c

/-- The walk loop of `CodeChunker._chunk_python` on a successfully parsed
tree: every walked `FunctionDef` yields a function chunk, every walked
`ClassDef` yields a class chunk followed by a method chunk per
`FunctionDef` directly in its body. -/
def chunkPythonParsed (md5hex : String → String) (file_path content : String)
    (tree : PyNode) : List Chunk :=
  (pyWalk [tree]).flatMap fun n =>
    match n.kind with
    | .functionDef _ _ _ _ _ _ => (extractPythonFunction md5hex file_path content n).toList
    | .classDef cname _ _ _ _ =>
      (extractPythonClass md5hex file_path content n).toList ++
      (n.children.filterMap fun item =>
        match item.kind with
        | .functionDef _ _ _ _ _ _ => extractPythonMethod md5hex cname file_path content item
        | _ => none)
    | _ => []

/-- `CodeChunker._chunk_python`: parse the content with `ast.parse`
(external; modelled as the explicit parameter `parse`, `none` standing
for a `SyntaxError`); on success walk the tree, on failure fall back to
the generic strategy — the source reads
`except SyntaxError: return self._chunk_generic(file_path, content)`. -/
def chunkPython (md5hex : String → String) (parse : String → Option PyNode)
    (file_path content : String) : List Chunk :=
  match parse content with
  | some tree => chunkPythonParsed md5hex file_path content tree
  | none => chunkGeneric md5hex file_path content

/-- `CodeChunker.chunk_file`: read the file (missing file or unreadable
content yields `[]` — the bare `except: return []`), then route on the
language. -/
def chunkFile (md5hex : String → String) (parse : String → Option PyNode)
    (readFile : String → Option String) (file_path language : String) : List Chunk :=
  match readFile file_path with
  | none => []
  | some content =>
    if language == "python" then chunkPython md5hex parse file_path content
    else if language == "javascript" || language == "typescript" then
      chunkJavascript md5hex file_path content
    else chunkGeneric md5hex file_path content

/-! ## FileProcessor (`file_processor.py`): detailed metadata extraction -/

/-- `pathlib.Path(p).name`: the final path component. -/
def pathBasename (p : String) : String :=
  (splitNlAux (p.data.map fun c => if c == '/' then '\n' else c) []).filter
      (fun s => s ≠ "") |>.getLastD ""

/-- `pathlib.Path(p).suffix`: the extension of the final component —
`name[i:]` for the last dot position `i` when `0 < i < len(name) - 1`,
else the empty string. -/
def pathSuffix (p : String) : String :=
  let name := pathBasename p
  match ((name.data.enum.filter fun q => q.2 == '.').map fun q => q.1).getLast? with
  | some i => if 0 < i ∧ i < name.data.length - 1 then String.mk (name.data.drop i) else ""
  | none => ""

/-- `FileProcessor._extract_python_imports`: the first dotted component
of the second token of every `import `/`from ` line, deduplicated
(Python goes through a `set`; the model keeps first-occurrence order).
A malformed line such as `"import "` with no second token raises
`IndexError` in Python, swallowed by the caller's bare `except`; the
model assumes well-formed import lines and takes `""` there. -/
def extractPythonImports (content : String) : List String :=
  ((pySplitNl content).filterMap fun l =>
    let line := pyStrip l
    if strStartsWith line "import " || strStartsWith line "from " then
      some (String.mk (((pySplitWs line).getD 1 "").data.takeWhile fun c => c ≠ '.'))
    else none).dedup

/-- The decision keywords of `FileProcessor._calculate_complexity`. -/
def decisionKeywords : List String :=
  ["if ", "elif ", "else:", "for ", "while ", "try:", "except:"]

/-- `FileProcessor._calculate_complexity`: decision-keyword occurrences,
normalized by the number of non-blank lines, scaled by 10.  Python
computes this in floating point; every value compared in a theorem below
is exactly representable, so `ℚ` is a faithful model. -/
def calcFileComplexity (content : String) : ℚ :=
  let complexity : ℚ := ((decisionKeywords.map fun kw => (pyCount content kw : ℚ)).sum)
  let lines := ((pySplitNl content).filter fun l => pyStrip l ≠ "").length
  complexity / max (lines : ℚ) 1 * 10

/-- The detailed per-file metadata of `FileProcessor.extract_file_metadata`
(the fields computed from the content; `file_size` comes from `os.stat`,
an external fact outside the model). -/
structure FileRecord where
  file_path : String
  file_name : String
  file_extension : String
  lines_of_code : Nat
  has_classes : Bool
  has_functions : Bool
  imports : List String
  complexity_score : ℚ
deriving DecidableEq

/-- `FileProcessor.extract_file_metadata`: the filesystem access is
external, so the model receives the read outcome directly — `none`
stands for a missing or unreadable file, in which case the default
metadata (zero counts, score `0.0`) is returned, mirroring the early
`return metadata` / bare `except: pass` paths. -/
def extractFileMetadata (file_path : String) (content? : Option String) : FileRecord :=
  let base : FileRecord :=
    { file_path := file_path
      file_name := pathBasename file_path
      file_extension := pathSuffix file_path
      lines_of_code := 0
      has_classes := false
      has_functions := false
      imports := []
      complexity_score := 0 }
  match content? with
  | none => base
  | some content =>
    { base with
      lines_of_code := ((pySplitNl content).filter fun line =>
        pyStrip line ≠ "" ∧
          ¬(strStartsWith (pyStrip line) "#" ∨ strStartsWith (pyStrip line) "//" ∨
            strStartsWith (pyStrip line) "/*")).length
      has_classes := strContains content "class "
      has_functions := ["def ", "function ", "func ", "fn "].any fun kw =>
        strContains content kw
      imports := if strEndsWith file_path ".py" then extractPythonImports content else []
      complexity_score := calcFileComplexity content }

/-! ## Indexer: `SemanticSearch` (`semantic_search.py`)

The sentence-transformer embedding model is external and deterministic;
it enters as the explicit parameter `encode : String → Vec`.  The FAISS
`IndexFlatL2` is modelled by its documented behaviour: exact
nearest-neighbour search under squared L2 distance, results in ascending
distance order (ties broken by the scan order of the flat index, i.e.
ascending vector position), and, when `k` exceeds the number of stored
vectors, the result padded to length `k` with label `-1` and the
float32 sentinel distance `FLT_MAX` (whose exact value is irrelevant; it
is a fixed constant here). -/

/-- An embedding vector (float32 in Python, exact rationals here). -/
abbrev Vec := List ℚ

/-- Squared L2 distance, as reported by `IndexFlatL2` for vectors of the
index's fixed dimensionality. -/
def sqL2 (u v : Vec) : ℚ :=
  ((u.zip v).map fun p => (p.1 - p.2) ^ 2).sum

/-- The sentinel distance attached to `-1` padding labels. -/
def faissPadDist : ℚ := 2 ^ 128

/-- Result ordering of the modelled flat index: ascending distance, ties
by ascending vector position. -/
def searchLe (a b : ℚ × Int) : Prop :=
  a.1 < b.1 ∨ (a.1 = b.1 ∧ a.2 ≤ b.2)

instance : DecidableRel searchLe := fun a b =>
  if h : a.1 < b.1 ∨ (a.1 = b.1 ∧ a.2 ≤ b.2) then .isTrue h else .isFalse h

instance : IsTotal (ℚ × Int) searchLe where
  total a b := by
    rcases lt_trichotomy a.1 b.1 with h | h | h
    · exact Or.inl (Or.inl h)
    · rcases le_total a.2 b.2 with h2 | h2
      · exact Or.inl (Or.inr ⟨h, h2⟩)
      · exact Or.inr (Or.inr ⟨h.symm, h2⟩)
    · exact Or.inr (Or.inl h)

instance : IsTrans (ℚ × Int) searchLe where
  trans a b c hab hbc := by
    rcases hab with h1 | ⟨h1, h1'⟩ <;> rcases hbc with h2 | ⟨h2, h2'⟩
    · exact Or.inl (h1.trans h2)
    · exact Or.inl (h2 ▸ h1)
    · exact Or.inl (h1 ▸ h2)
    · exact Or.inr ⟨h1.trans h2, h1'.trans h2'⟩

/-- Distances of the query to every stored vector, tagged with the
vector's position (`i` is the position of the head of the list). -/
def scoreVecs (q : Vec) : List Vec → Int → List (ℚ × Int)
  | [], _ => []
  | v :: vs, i => (sqL2 q v, i) :: scoreVecs q vs (i + 1)

/-- `faiss.IndexFlatL2.search` for a single query: the `k` nearest
stored vectors in ascending-distance order, padded with `(FLT_MAX, -1)`
entries when fewer than `k` vectors are stored.  The output always has
exactly `k` entries, as in FAISS. -/
def faissSearch (vecs : List Vec) (q : Vec) (k : Nat) : List (ℚ × Int) :=
  (List.insertionSort searchLe (scoreVecs q vecs 0) ++
    List.replicate k (faissPadDist, -1)).take k

/-- The state of a `SemanticSearch` instance: the embedding-model name,
the (optional, `None` until built or loaded) flat index, and the parallel
chunk-id list. -/
structure SemState where
  model_name : String
  index : Option (List Vec)
  chunk_ids : List String
deriving DecidableEq

/-- `SemanticSearch.__init__`. -/
def initSem (model_name : String) : SemState :=
  { model_name := model_name, index := none, chunk_ids := [] }

/-- `SemanticSearch.build_index(chunks, embeddings)`: a fresh flat index
holding the embeddings, plus the parallel list of chunk ids. -/
def buildIndex (chunks : List Chunk) (embeddings : List Vec) (s : SemState) : SemState :=
  { s with index := some embeddings, chunk_ids := chunks.map Chunk.id }

/-- One search result. -/
structure SearchResult where
  chunk_id : String
  similarity_score : ℚ
  rank : Nat
deriving DecidableEq

/-- The result loop of `SemanticSearch.search`:
`for i, (distance, idx) in enumerate(zip(distances[0], indices[0]))`,
appending `{chunk_id, similarity_score, rank}` for every entry passing
`idx < len(self.chunk_ids)`.  `i` is the running enumeration counter
(rank `i + 1`).  `self.chunk_ids[idx]` uses Python indexing, so the
padding label `-1` passes the guard and selects the *last* chunk id; on
an empty index it would raise `IndexError` (here: the entry is dropped),
a case no theorem below relies on. -/
def searchResultsAux (ids : List String) : List (ℚ × Int) → Nat → List SearchResult
  | [], _ => []
  | p :: ps, i =>
    if p.2 < (ids.length : Int) then
      match pyGet ids p.2 with
      | some cid =>
        { chunk_id := cid, similarity_score := 1 / (1 + p.1), rank := i + 1 } ::
          searchResultsAux ids ps (i + 1)
      | none => searchResultsAux ids ps (i + 1)
    else searchResultsAux ids ps (i + 1)

/-- `SemanticSearch.search(query, top_k)`: `[]` when no index is built,
otherwise a FAISS search followed by the result loop. -/
def SemState.search (encode : String → Vec) (s : SemState) (query : String)
    (top_k : Nat) : List SearchResult :=
  match s.index with
  | none => []
  | some vecs =>
    searchResultsAux s.chunk_ids (faissSearch vecs (encode query) top_k) 0

/-- The persistence directory: an association list keyed by
`(save_dir, project_id)` holding the serialized index and chunk-id list.
A later save of the same key shadows the earlier one. -/
abbrev Store := List ((String × String) × (List Vec × List String))

/-- `SemanticSearch.save_index(project_id, save_dir)`: writes the FAISS
index and the pickled chunk ids; with no index built,
`faiss.write_index(None, ...)` raises (`none` here). -/
def saveIndex (s : SemState) (project_id save_dir : String) (store : Store) :
    Option Store :=
  match s.index with
  | none => none
  | some vecs => some (((save_dir, project_id), (vecs, s.chunk_ids)) :: store)

/-- `SemanticSearch.load_index(project_id, load_dir)`: `FileNotFoundError`
(`none`) when nothing was saved under the key; otherwise replace the
instance's index and chunk ids with the stored ones. -/
def loadIndex (store : Store) (project_id load_dir : String) (s : SemState) :
    Option SemState :=
  match store.lookup (load_dir, project_id) with
  | none => none
  | some (vecs, ids) => some { s with index := some vecs, chunk_ids := ids }

/-- `SemanticSearch.get_similar_chunks(chunk_id, top_k)`: unknown ids
yield `[]`; otherwise reconstruct the stored embedding of the chunk's
first position, search for `top_k + 1` neighbours, drop the first, and
keep `self.chunk_ids[i]` for every remaining label passing `i < len(chunk_ids)`
(again Python indexing, so label `-1` selects the last id). -/
def SemState.getSimilarChunks (s : SemState) (chunk_id : String) (top_k : Nat) :
    List String :=
  if chunk_id ∈ s.chunk_ids then
    match s.index with
    | none => []
    | some vecs =>
      match vecs[s.chunk_ids.indexOf chunk_id]? with
      | none => []
      | some emb =>
        ((faissSearch vecs emb (top_k + 1)).drop 1).filterMap fun p =>
          if p.2 < (s.chunk_ids.length : Int) then pyGet s.chunk_ids p.2 else none
  else []

/-! ## RepositoryAnalyzer (`repo_analyser.py`): project-type detection -/

/-- One technology signature of `RepositoryAnalyzer.PROJECT_PATTERNS`. -/
structure ProjectPattern where
  files : List String
  imports : List String
  configs : List String
  indicators : List String

/-- The `PROJECT_PATTERNS` table, in insertion order. -/
def projectPatterns : List (String × ProjectPattern) :=
  [("fastapi",
    { files := ["main.py", "app.py"]
      imports := ["from fastapi import", "import fastapi"]
      configs := ["backend_requirements.txt", "pyproject.toml"]
      indicators := ["@app.get", "@app.post", "FastAPI("] }),
   ("flask",
    { files := ["app.py", "wsgi.py"]
      imports := ["from flask import", "import flask"]
      configs := ["backend_requirements.txt"]
      indicators := ["@app.route", "Flask(__name__)"] }),
   ("django",
    { files := ["manage.py", "wsgi.py"]
      imports := ["django"]
      configs := ["backend_requirements.txt", "settings.py"]
      indicators := ["INSTALLED_APPS", "DATABASES"] }),
   ("react",
    { files := ["package.json", "src/App.js", "src/index.js"]
      imports := ["import React", "from 'react'"]
      configs := ["package.json", "tsconfig.json"]
      indicators := ["React.Component", "useState", "useEffect"] }),
   ("express",
    { files := ["package.json", "server.js", "app.js"]
      imports := ["express", "const express"]
      configs := ["package.json"]
      indicators := ["app.listen", "express()"] }),
   ("spring_boot",
    { files := ["pom.xml", "build.gradle"]
      imports := ["org.springframework"]
      configs := ["application.properties", "application.yml"]
      indicators := ["@SpringBootApplication", "@RestController"] })]

/-- The scanned repository as the analyzer sees it: the file list built
by `_scan_directory` and the file-read capability (`none` = the `open`
raises, swallowed by `except: pass`). -/
structure RepoFs where
  files_list : List String
  content : String → Option String

/-- `RepositoryAnalyzer._file_exists(pattern)`: some listed path ends
with the pattern or contains it. -/
def fileExists (files_list : List String) (pattern : String) : Bool :=
  files_list.any fun f => strEndsWith f pattern || strContains f pattern

/-- `RepositoryAnalyzer._check_file_contents`: over the first 10 listed
files with a code suffix, read up to 5000 characters and count how many
of the signature's characteristic substrings (its "imports" and
"indicators") occur; normalize by the number of files actually read and
cap at 5.0. -/
def checkFileContents (fs : RepoFs) (p : ProjectPattern) : ℚ :=
  let acc := (fs.files_list.take 10).foldl
    (fun (acc : ℚ × ℚ) fp =>
      if pathSuffix fp ∈ [".py", ".js", ".java", ".ts", ".jsx", ".tsx"] then
        match fs.content fp with
        | some c0 =>
          let c := String.mk (c0.data.take 5000)
          let s1 := (p.imports.filter fun pat => strContains c pat).length
          let s2 := (p.indicators.filter fun pat => strContains c pat).length
          (acc.1 + s1 + s2, acc.2 + 1)
        | none => acc
      else acc)
    (0, 0)
  min (acc.1 / max acc.2 1) 5

/-- The numerator score of one signature in
`RepositoryAnalyzer._detect_project_type`: 3 per matching characteristic
file, 2 per matching config file, plus the content score. -/
def signatureScore (fs : RepoFs) (p : ProjectPattern) : ℚ :=
  3 * ((p.files.filter fun f => fileExists fs.files_list f).length : ℚ) +
  2 * ((p.configs.filter fun f => fileExists fs.files_list f).length : ℚ) +
  checkFileContents fs p

/-- The maximum attainable score of one signature: 3 per characteristic
file, 2 per config file, 5 for content. -/
def signatureMaxScore (p : ProjectPattern) : ℚ :=
  3 * (p.files.length : ℚ) + 2 * (p.configs.length : ℚ) + 5

/-- The `scores` dict of `_detect_project_type`, in insertion order: one
confidence per signature whose maximum score is positive (which holds
for every signature of the table, so no entry is ever dropped). -/
def scoresList (fs : RepoFs) : List (String × ℚ) :=
  projectPatterns.filterMap fun e =>
    if 0 < signatureMaxScore e.2 then
      some (e.1, signatureScore fs e.2 / signatureMaxScore e.2)
    else none

/-- Python `max(scores.items(), key=lambda x: x[1])`: the first entry
attaining the maximum value (`max` replaces the champion only on a
strictly greater key); an empty dict takes the
`return "unknown", 0.0` branch instead. -/
def pickBestAux (best : String × ℚ) : List (String × ℚ) → String × ℚ
  | [] => best
  | y :: ys => pickBestAux (if best.2 < y.2 then y else best) ys

/-- `Python max` over the whole items list (see `pickBestAux`); an empty
dict takes the `return "unknown", 0.0` branch instead. -/
def pickBest : List (String × ℚ) → String × ℚ
  | [] => ("unknown", 0)
  | x :: xs => pickBestAux x xs

/-- `RepositoryAnalyzer._detect_project_type`. -/
def detectProjectType (fs : RepoFs) : String × ℚ :=
  pickBest (scoresList fs)

/-! ## ProgressTracker (`progress_tracker.py`)

The tracker mutates one `ProjectProgress` row; the row's percentage and
counter fields are the state here (timestamps and the activity feed do
not influence the percentages and are outside the model).  Percentages
are Python floats, modelled exactly over `ℚ`. -/

/-- `ProgressStage`, in declaration order. -/
inductive Stage where
  | upload | extraction | analysis | fileProcessing
  | codeChunking | semanticIndexing | docGeneration | completed
deriving DecidableEq

/-- The position of a stage in `list(ProgressStage)`. -/
def stageIdx : Stage → Nat
  | .upload => 0
  | .extraction => 1
  | .analysis => 2
  | .fileProcessing => 3
  | .codeChunking => 4
  | .semanticIndexing => 5
  | .docGeneration => 6
  | .completed => 7

/-- `ProgressStatus`. -/
inductive PStatus where
  | queued | inProgress | completed | failed | cancelled
deriving DecidableEq

/-- The tracked progress state (`ProjectProgress` row). -/
structure PState where
  status : PStatus
  current_stage : Stage
  overall_percentage : ℚ
  current_stage_percentage : ℚ
  total_files : Int
  processed_files : Int
  current_file : Option String
  total_chunks : Int
  processed_chunks : Int
  error_message : Option String
deriving DecidableEq

/-- A freshly created progress row (`_get_or_create_progress` defaults). -/
def initProgress : PState :=
  { status := .queued
    current_stage := .upload
    overall_percentage := 0
    current_stage_percentage := 0
    total_files := 0
    processed_files := 0
    current_file := none
    total_chunks := 0
    processed_chunks := 0
    error_message := none }

/-- The `stage_weights` table of `_update_overall_percentage` (stages
absent from the table — only `completed` — carry no weight). -/
def stageWeight : Stage → ℚ
  | .upload => 5
  | .extraction => 5
  | .analysis => 15
  | .fileProcessing => 25
  | .codeChunking => 25
  | .semanticIndexing => 20
  | .docGeneration => 5
  | .completed => 0

/-- The `completed_stages` value of one weighted stage after the two
marking loops: the current stage carries `current_stage_percentage`,
stages strictly before it carry 100, later stages carry 0. -/
def stageVal (s : PState) (st : Stage) : ℚ :=
  if st = s.current_stage then s.current_stage_percentage
  else if stageIdx st < stageIdx s.current_stage then 100 else 0

/-- The `weighted_sum` of `_update_overall_percentage` (the seven
weighted stages, in table order). -/
def weightedSum (s : PState) : ℚ :=
  stageVal s .upload * 5 / 100 + stageVal s .extraction * 5 / 100 +
  stageVal s .analysis * 15 / 100 + stageVal s .fileProcessing * 25 / 100 +
  stageVal s .codeChunking * 25 / 100 + stageVal s .semanticIndexing * 20 / 100 +
  stageVal s .docGeneration * 5 / 100

/-- `ProgressTracker._update_overall_percentage`: the total weight is
`5+5+15+25+25+20+5 = 100`. -/
def updateOverall (s : PState) : PState :=
  { s with overall_percentage := weightedSum s / 100 * 100 }

/-- The public mutating operations of `ProgressTracker`. -/
inductive POp where
  | startStage (stage : Stage) (total_items : Int)
  | completeStage (stage : Stage)
  | completeProcessing
  | markFailed (msg : String)
  | updateFileProgress (file_name file_path : String) (current total : Int)
  | updateChunkProgress (file_name : String) (chunks_created : Int)

/-- One `ProgressTracker` call.  `start_stage` resets the stage
percentage (and, for the two counted stages, the item counters) without
recomputing the overall percentage; the two update operations recompute
the stage percentage only when the respective total is positive, then
refresh the overall percentage; `complete_processing` forces 100. -/
def stepProgress (s : PState) : POp → PState
  | .startStage st total =>
    let s1 := { s with current_stage := st, status := .inProgress,
                       current_stage_percentage := 0 }
    if st = .fileProcessing then { s1 with total_files := total, processed_files := 0 }
    else if st = .codeChunking then { s1 with total_chunks := total, processed_chunks := 0 }
    else s1
  | .completeStage _ => updateOverall { s with current_stage_percentage := 100 }
  | .completeProcessing =>
    { s with status := .completed, current_stage := .completed, overall_percentage := 100 }
  | .markFailed msg => { s with status := .failed, error_message := some msg }
  | .updateFileProgress fn _fp current total =>
    let s1 := { s with current_file := some fn, processed_files := current,
                       total_files := total }
    updateOverall (if 0 < total then
      { s1 with current_stage_percentage := (current : ℚ) / (total : ℚ) * 100 }
    else s1)
  | .updateChunkProgress _fn created =>
    let s1 := { s with processed_chunks := s.processed_chunks + created }
    updateOverall (if 0 < s1.total_chunks then
      { s1 with current_stage_percentage :=
          (s1.processed_chunks : ℚ) / (s1.total_chunks : ℚ) * 100 }
    else s1)

/-- A sequence of tracker calls, applied in order. -/
def runProgress (s : PState) : List POp → PState
  | [] => s
  | op :: ops => runProgress (stepProgress s op) ops

/-- The proviso under which the percentage bound can hold: every
file-progress report stays within its declared total, and every
chunk-progress report keeps the accumulated count within the declared
total.  (`_run_code_chunking` in `preprocessing_sys.py` violates the
second clause: it declares the number of *files* as the total and then
accumulates *chunks*.) -/
def POpOk (s : PState) : POp → Prop
  | .updateFileProgress _ _ current total => 0 < total → 0 ≤ current ∧ current ≤ total
  | .updateChunkProgress _ created =>
    0 < s.total_chunks →
      0 ≤ s.processed_chunks + created ∧ s.processed_chunks + created ≤ s.total_chunks
  | _ => True

/-- The proviso, along a whole call sequence. -/
def TraceOk (s : PState) : List POp → Prop
  | [] => True
  | op :: ops => POpOk s op ∧ TraceOk (stepProgress s op) ops

/-- Both percentage fields lie within `[0, 100]`. -/
def PctBounded (s : PState) : Prop :=
  0 ≤ s.current_stage_percentage ∧ s.current_stage_percentage ≤ 100 ∧
  0 ≤ s.overall_percentage ∧ s.overall_percentage ≤ 100

instance (s : PState) (op : POp) : Decidable (POpOk s op) := by
  cases op <;> (unfold POpOk) <;> infer_instance

instance (s : PState) : ∀ ops : List POp, Decidable (TraceOk s ops)
  | [] => .isTrue trivial
  | op :: ops =>
    haveI := instDecidableTraceOk (stepProgress s op) ops
    inferInstanceAs (Decidable (_ ∧ _))

instance (s : PState) : Decidable (PctBounded s) := by
  unfold PctBounded; infer_instance

/-! ## Concrete instances shared by witnesses and counterexamples -/

/-- A stand-in digest function for concrete instances; every theorem
about chunk ids holds for an arbitrary digest, the MD5 digest of
`hashlib` in particular. -/
def md5c : String → String := fun _ => "0123456789abcdef0123456789abcdef"

/-- A concrete chunk with a given id, for building concrete indexes. -/
def mkChunkC (i : String) : Chunk :=
  { id := i, file_path := "f.py", chunk_type := "function", name := i
    signature := "def " ++ i ++ "()", start_line := 1, end_line := 1, code := "pass"
    complexity := 1, token_count := 1, keywords := [] }

/-- A concrete one-dimensional embedding function mapping every text to
the origin. -/
def encodeC : String → Vec := fun _ => [0]

/-- A concrete scanned repository with no files. -/
def emptyRepoFs : RepoFs := ⟨[], fun _ => none⟩

/-! ## Helper lemmas: squared distances and scored vectors -/

theorem sqL2_nonneg (u v : Vec) : 0 ≤ sqL2 u v := by
  unfold sqL2
  apply List.sum_nonneg
  intro x hx
  obtain ⟨p, _, rfl⟩ := List.mem_map.1 hx
  positivity

theorem sqL2_self (v : Vec) : sqL2 v v = 0 := by
  unfold sqL2
  induction v with
  | nil => simp
  | cons a as ih => simpa using ih

theorem scoreVecs_mem {q : Vec} : ∀ {vs : List Vec} {i : Int} {p : ℚ × Int},
    p ∈ scoreVecs q vs i →
    ∃ j : Nat, j < vs.length ∧ p = (sqL2 q (vs.getD j []), i + j)
  | v :: vs, i, p, hp => by
    rcases List.mem_cons.1 hp with h | h
    · exact ⟨0, by simp, by simpa using h⟩
    · obtain ⟨j, hj, hpe⟩ := scoreVecs_mem h
      exact ⟨j + 1, by simpa using hj, by
        simp only [hpe, List.getD_cons_succ]
        congr 1
        push_cast
        ring⟩

theorem scoreVecs_self_mem {q : Vec} : ∀ {l : List Vec} {i : Int} {j : Nat},
    j < l.length → (sqL2 q (l.getD j []), i + j) ∈ scoreVecs q l i
  | v :: vs, i, 0, _ => by simp [scoreVecs]
  | v :: vs, i, j + 1, hj => by
    have := scoreVecs_self_mem (q := q) (l := vs) (i := i + 1) (j := j)
      (by simpa using hj)
    refine List.mem_cons.2 (Or.inr ?_)
    simpa [List.getD_cons_succ, add_assoc, add_comm, add_left_comm] using this

theorem scoreVecs_length (q : Vec) : ∀ (vs : List Vec) (i : Int),
    (scoreVecs q vs i).length = vs.length
  | [], _ => rfl
  | v :: vs, i => by simp [scoreVecs, scoreVecs_length q vs (i + 1)]

theorem scoreVecs_snd_mono (q : Vec) : ∀ (vs : List Vec) (i : Int),
    (scoreVecs q vs i).Pairwise fun a b => a.2 < b.2
  | [], _ => List.Pairwise.nil
  | v :: vs, i => by
    refine List.pairwise_cons.2 ⟨?_, scoreVecs_snd_mono q vs (i + 1)⟩
    intro b hb
    obtain ⟨j, _, rfl⟩ := scoreVecs_mem hb
    simp only
    omega

theorem scoreVecs_dist_nonneg {q : Vec} {vs : List Vec} {i : Int} {p : ℚ × Int}
    (hp : p ∈ scoreVecs q vs i) : 0 ≤ p.1 := by
  obtain ⟨j, _, rfl⟩ := scoreVecs_mem hp
  exact sqL2_nonneg _ _

/-! ## Helper lemmas: the modelled FAISS search -/

theorem faissSearch_length (vecs : List Vec) (q : Vec) (k : Nat) :
    (faissSearch vecs q k).length = k := by
  unfold faissSearch
  simp [List.length_take]

theorem faissSearch_mem {vecs : List Vec} {q : Vec} {k : Nat} {p : ℚ × Int}
    (hp : p ∈ faissSearch vecs q k) :
    p ∈ scoreVecs q vecs 0 ∨ p = (faissPadDist, -1) := by
  unfold faissSearch at hp
  have hp' := List.take_subset _ _ hp
  rcases List.mem_append.1 hp' with h | h
  · exact Or.inl ((List.perm_insertionSort searchLe _).mem_iff.1 h)
  · exact Or.inr (List.eq_of_mem_replicate h)

/-- Every entry of a FAISS result has a label below the number of stored
vectors (`-1` for padding), and a nonnegative distance. -/
theorem faissSearch_mem_bounds {vecs : List Vec} {q : Vec} {k : Nat} {p : ℚ × Int}
    (hp : p ∈ faissSearch vecs q k) :
    0 ≤ p.1 ∧ (p = (faissPadDist, -1) ∨ (0 ≤ p.2 ∧ p.2 < (vecs.length : Int))) := by
  rcases faissSearch_mem hp with h | h
  · refine ⟨scoreVecs_dist_nonneg h, Or.inr ?_⟩
    obtain ⟨j, hj, rfl⟩ := scoreVecs_mem h
    constructor
    · simp
    · simpa using hj
  · subst h
    refine ⟨?_, Or.inl rfl⟩
    unfold faissPadDist
    positivity

/-- The FAISS result is sorted by nondecreasing distance, provided every
stored vector's distance to the query stays at or below the padding
sentinel. -/
theorem faissSearch_sorted {vecs : List Vec} {q : Vec} (k : Nat)
    (hbound : ∀ p ∈ scoreVecs q vecs 0, p.1 ≤ faissPadDist) :
    (faissSearch vecs q k).Pairwise fun a b => a.1 ≤ b.1 := by
  unfold faissSearch
  refine List.Pairwise.sublist (List.take_sublist _ _) ?_
  refine List.pairwise_append.2 ⟨?_, ?_, ?_⟩
  · refine (List.sorted_insertionSort searchLe _).imp ?_
    rintro a b (h | ⟨h, -⟩)
    · exact le_of_lt h
    · exact le_of_eq h
  · exact List.pairwise_replicate.2 (Or.inr le_rfl)
  · intro a ha b hb
    have hb' := List.eq_of_mem_replicate hb
    subst hb'
    exact hbound a ((List.perm_insertionSort searchLe _).mem_iff.1 ha)

/-! ## Helper lemmas: the search result loop -/

theorem pyGet_neg_one_isSome {α : Type} {xs : List α} (h : xs ≠ []) :
    (pyGet xs (-1)).isSome := by
  have hlen : 0 < xs.length := List.length_pos.2 h
  unfold pyGet
  simp only [show ¬((0 : Int) ≤ -1) by omega, if_false, show ((-(-1 : Int)).toNat = 1) from rfl]
  rw [if_pos (by omega : 1 ≤ xs.length)]
  rw [List.getElem?_eq_getElem (by omega : xs.length - 1 < xs.length)]
  rfl

theorem pyGet_nat_isSome {α : Type} {xs : List α} {i : Int} (h0 : 0 ≤ i)
    (h : i < (xs.length : Int)) : (pyGet xs i).isSome := by
  unfold pyGet
  rw [if_pos h0]
  rw [List.getElem?_eq_getElem (by omega : i.toNat < xs.length)]
  rfl

theorem searchResultsAux_spec (ids : List String) :
    ∀ (hits : List (ℚ × Int)) (i : Nat),
    (∀ p ∈ hits, p.2 < (ids.length : Int) ∧ (pyGet ids p.2).isSome) →
    (searchResultsAux ids hits i).map SearchResult.rank
        = List.range' (i + 1) hits.length ∧
    (searchResultsAux ids hits i).map SearchResult.similarity_score
        = hits.map fun p => 1 / (1 + p.1)
  | [], i, _ => by simp [searchResultsAux]
  | p :: ps, i, h => by
    obtain ⟨hlt, hsome⟩ := h p (List.mem_cons_self p ps)
    obtain ⟨cid, hcid⟩ := Option.isSome_iff_exists.1 hsome
    have ih := searchResultsAux_spec ids ps (i + 1) fun x hx => h x (List.mem_cons_of_mem p hx)
    simp only [searchResultsAux, if_pos hlt, hcid, List.map_cons, List.length_cons,
      List.range'_succ, ih.1, ih.2]
    simp

/-- C1, amended.  `search(q, k)` on an index built from parallel chunk
and embedding lists returns at most `k` results (in fact exactly `k` on a
nonempty index), sorted by nonincreasing — not necessarily strictly
decreasing — similarity, with rank fields exactly `1..len(results)`;
the hypotheses ask that the index be nonempty and that every stored
vector's distance to the query stay at or below the FAISS padding
sentinel (true of any real float32 index). -/
theorem C1_search_ranking (encode : String → Vec) (chunks : List Chunk)
    (embs : List Vec) (s0 : SemState) (q : String) (k : Nat)
    (hlen : chunks.length = embs.length) (hne : embs ≠ [])
    (hbound : ∀ v ∈ embs, sqL2 (encode q) v ≤ faissPadDist) :
    ((buildIndex chunks embs s0).search encode q k).length ≤ k ∧
    ((((buildIndex chunks embs s0).search encode q k).map
        SearchResult.similarity_score).Pairwise fun a b => b ≤ a) ∧
    ((buildIndex chunks embs s0).search encode q k).map SearchResult.rank
      = List.range' 1 ((buildIndex chunks embs s0).search encode q k).length := by
  have hids : (chunks.map Chunk.id).length = embs.length := by
    simpa [List.length_map] using hlen
  have hsearch : (buildIndex chunks embs s0).search encode q k
      = searchResultsAux (chunks.map Chunk.id) (faissSearch embs (encode q) k) 0 := rfl
  have hall : ∀ p ∈ faissSearch embs (encode q) k,
      p.2 < ((chunks.map Chunk.id).length : Int) ∧
        (pyGet (chunks.map Chunk.id) p.2).isSome := by
    intro p hp
    have hepos : 0 < embs.length := List.length_pos.2 hne
    rcases (faissSearch_mem_bounds hp).2 with hpad | ⟨h0, hlt⟩
    · constructor
      · rw [hpad, hids]; omega
      · rw [hpad]
        exact pyGet_neg_one_isSome (by
          intro hnil
          rw [hnil] at hids
          simp at hids
          omega)
    · exact ⟨by rw [hids]; exact hlt, pyGet_nat_isSome h0 (by rw [hids]; exact hlt)⟩
  have hspec := searchResultsAux_spec (chunks.map Chunk.id) (faissSearch embs (encode q) k) 0 hall
  have hlength : ((buildIndex chunks embs s0).search encode q k).length = k := by
    rw [hsearch]
    have := congrArg List.length hspec.1
    simpa [faissSearch_length] using this
  refine ⟨le_of_eq hlength, ?_, ?_⟩
  · rw [hsearch, hspec.2, List.pairwise_map]
    have hboundScored : ∀ p ∈ scoreVecs (encode q) embs 0, p.1 ≤ faissPadDist := by
      intro p hp
      obtain ⟨j, hj, rfl⟩ := scoreVecs_mem hp
      refine hbound _ ?_
      rw [List.getD_eq_getElem _ _ hj]
      exact List.getElem_mem hj
    refine ((faissSearch_sorted k hboundScored).imp_of_mem ?_)
    intro a b ha hb hab
    have h0a : 0 ≤ a.1 := (faissSearch_mem_bounds ha).1
    exact one_div_le_one_div_of_le (by linarith) (by linarith)
  · have h2 := congrArg List.length hspec.1
    simp only [List.length_map, List.length_range'] at h2
    rw [hsearch, hspec.1, h2]

/-- C1, counterexample to the claim as stated: two chunks with identical
embeddings tie in distance, so the similarity scores are not *strictly*
decreasing. -/
theorem C1_counterexample :
    ¬ ((((buildIndex [mkChunkC "a", mkChunkC "b"] [[0], [0]] (initSem "m")).search
        encodeC "q" 2).map SearchResult.similarity_score).Pairwise fun a b => b < a) := by
  norm_num [SemState.search, buildIndex, initSem, mkChunkC, encodeC, faissSearch,
    scoreVecs, sqL2, List.insertionSort, List.orderedInsert, searchResultsAux,
    pyGet, searchLe, faissPadDist]

/-- C1, witness: the amended theorem applied to a concrete one-chunk
index. -/
theorem C1_witness :
    ((buildIndex [mkChunkC "a"] [[0]] (initSem "m")).search encodeC "q" 1).length ≤ 1 ∧
    ((((buildIndex [mkChunkC "a"] [[0]] (initSem "m")).search encodeC "q" 1).map
        SearchResult.similarity_score).Pairwise fun a b => b ≤ a) ∧
    ((buildIndex [mkChunkC "a"] [[0]] (initSem "m")).search encodeC "q" 1).map
        SearchResult.rank
      = List.range' 1
          ((buildIndex [mkChunkC "a"] [[0]] (initSem "m")).search encodeC "q" 1).length :=
  C1_search_ranking encodeC [mkChunkC "a"] [[0]] (initSem "m") "q" 1 rfl
    (by simp)
    (by
      intro v hv
      rw [List.mem_singleton] at hv
      subst hv
      norm_num [sqL2, encodeC, faissPadDist])

/-! ## C2: round-trip persistence -/

/-- C2, confirmed.  `save_index` after `build_index` always succeeds, a
subsequent `load_index` of the same `(dir, project_id)` key into a fresh
(indeed, into an arbitrary) instance succeeds, and the loaded instance's
`search` agrees with the original instance's `search` for every query
and every `top_k`. -/
theorem C2_round_trip (encode : String → Vec) (chunks : List Chunk) (embs : List Vec)
    (s0 fresh : SemState) (project_id save_dir : String) (store : Store)
    (q : String) (k : Nat) :
    ((saveIndex (buildIndex chunks embs s0) project_id save_dir store).bind
        fun st => loadIndex st project_id save_dir fresh).map
        (fun s => s.search encode q k)
      = some ((buildIndex chunks embs s0).search encode q k) := by
  simp [saveIndex, buildIndex, loadIndex, List.lookup, SemState.search]

/-! ## C3: self-exclusion of `get_similar_chunks` -/

theorem take_append_left {α : Type} (l1 l2 : List α) {n : Nat} (h : n ≤ l1.length) :
    (l1 ++ l2).take n = l1.take n := by
  induction l1 generalizing n with
  | nil =>
    simp only [List.length_nil, Nat.le_zero] at h
    simp [h]
  | cons a as ih =>
    cases n with
    | zero => simp
    | succ n => simp [List.take_succ_cons, ih (by simpa using h)]

theorem pyGet_nat_eq {α : Type} {xs : List α} {i : Int} (h0 : 0 ≤ i) :
    pyGet xs i = xs[i.toNat]? := by
  unfold pyGet
  rw [if_pos h0]

/-- C3, amended.  `similar(chunkId, k)` never returns `chunkId` itself,
provided the stored chunk ids are pairwise distinct, no *other* stored
embedding is at squared-L2 distance zero from `chunkId`'s embedding, and
`top_k + 1` does not exceed the number of indexed vectors (so that no
`-1` padding labels arise). -/
theorem C3_self_exclusion (chunks : List Chunk) (embs : List Vec) (s0 : SemState)
    (cid : String) (k : Nat)
    (hlen : chunks.length = embs.length)
    (hnodup : (chunks.map Chunk.id).Nodup)
    (hk : k + 1 ≤ embs.length)
    (hdist : ∀ j, j < embs.length → j ≠ (chunks.map Chunk.id).indexOf cid →
      sqL2 (embs.getD ((chunks.map Chunk.id).indexOf cid) []) (embs.getD j []) ≠ 0) :
    cid ∉ (buildIndex chunks embs s0).getSimilarChunks cid k := by
  by_cases hmem : cid ∈ chunks.map Chunk.id
  case neg =>
    simp [SemState.getSimilarChunks, buildIndex, hmem]
  case pos =>
  have hidslen : (chunks.map Chunk.id).length = embs.length := by
    simpa [List.length_map] using hlen
  have hidxlt : (chunks.map Chunk.id).indexOf cid < (chunks.map Chunk.id).length :=
    List.indexOf_lt_length.2 hmem
  have hidxlt' : (chunks.map Chunk.id).indexOf cid < embs.length := by omega
  have hrec : embs[(chunks.map Chunk.id).indexOf cid]?
      = some (embs.getD ((chunks.map Chunk.id).indexOf cid) []) := by
    rw [List.getElem?_eq_getElem hidxlt', List.getD_eq_getElem _ _ hidxlt']
  have hres : (buildIndex chunks embs s0).getSimilarChunks cid k
      = ((faissSearch embs (embs.getD ((chunks.map Chunk.id).indexOf cid) []) (k + 1)).drop
          1).filterMap fun p =>
            if p.2 < ((chunks.map Chunk.id).length : Int) then pyGet (chunks.map Chunk.id) p.2
            else none := by
    simp only [SemState.getSimilarChunks, buildIndex, if_pos hmem, hrec]
  have hperm := List.perm_insertionSort searchLe
    (scoreVecs (embs.getD ((chunks.map Chunk.id).indexOf cid) []) embs 0)
  have hsorted := List.sorted_insertionSort searchLe
    (scoreVecs (embs.getD ((chunks.map Chunk.id).indexOf cid) []) embs 0)
  have hsortlen : (List.insertionSort searchLe
      (scoreVecs (embs.getD ((chunks.map Chunk.id).indexOf cid) []) embs 0)).length
      = embs.length := by
    rw [hperm.length_eq, scoreVecs_length]
  have htake : faissSearch embs (embs.getD ((chunks.map Chunk.id).indexOf cid) []) (k + 1)
      = (List.insertionSort searchLe
          (scoreVecs (embs.getD ((chunks.map Chunk.id).indexOf cid) []) embs 0)).take (k + 1) := by
    unfold faissSearch
    rw [take_append_left _ _ (by omega)]
  have hself : ((0 : ℚ), ((chunks.map Chunk.id).indexOf cid : Int)) ∈
      scoreVecs (embs.getD ((chunks.map Chunk.id).indexOf cid) []) embs 0 := by
    have := scoreVecs_self_mem
      (q := embs.getD ((chunks.map Chunk.id).indexOf cid) []) (l := embs) (i := 0)
      (j := (chunks.map Chunk.id).indexOf cid) hidxlt'
    simpa [sqL2_self] using this
  have huniq : ∀ p ∈ scoreVecs (embs.getD ((chunks.map Chunk.id).indexOf cid) []) embs 0,
      p.1 = 0 → p.2 = ((chunks.map Chunk.id).indexOf cid : Int) := by
    intro p hp hp0
    obtain ⟨j, hj, rfl⟩ := scoreVecs_mem hp
    simp only [zero_add]
    by_contra hne
    have hjne : j ≠ (chunks.map Chunk.id).indexOf cid := by
      intro hcontr
      exact hne (by simp [hcontr])
    exact hdist j hj hjne (by simpa using hp0)
  obtain ⟨h0, tl, hcons⟩ : ∃ h0 tl, List.insertionSort searchLe
      (scoreVecs (embs.getD ((chunks.map Chunk.id).indexOf cid) []) embs 0) = h0 :: tl := by
    cases hsl : List.insertionSort searchLe
        (scoreVecs (embs.getD ((chunks.map Chunk.id).indexOf cid) []) embs 0) with
    | nil => rw [hsl] at hsortlen; simp at hsortlen; omega
    | cons a l => exact ⟨a, l, rfl⟩
  have hh0mem : h0 ∈ scoreVecs (embs.getD ((chunks.map Chunk.id).indexOf cid) []) embs 0 :=
    hperm.subset (hcons ▸ List.mem_cons_self _ _)
  have hh0le : ∀ b ∈ tl, searchLe h0 b := by
    have h' := hcons ▸ hsorted
    intro b hb
    exact List.rel_of_pairwise_cons h' hb
  have hselfsorted : ((0 : ℚ), ((chunks.map Chunk.id).indexOf cid : Int)) ∈ h0 :: tl :=
    hcons ▸ hperm.mem_iff.2 hself
  have hh0 : h0 = ((0 : ℚ), ((chunks.map Chunk.id).indexOf cid : Int)) := by
    rcases List.mem_cons.1 hselfsorted with heq | hmem'
    · exact heq.symm
    · have hle := hh0le _ hmem'
      have h0nonneg : 0 ≤ h0.1 := scoreVecs_dist_nonneg hh0mem
      have h0zero : h0.1 = 0 := by
        rcases hle with hlt | ⟨heq, -⟩
        · exact absurd hlt (not_lt.2 h0nonneg)
        · exact heq
      exact Prod.ext h0zero (huniq h0 hh0mem h0zero)
  have hsnd_nodup : ((h0 :: tl).map Prod.snd).Nodup := by
    have h1 : ((scoreVecs (embs.getD ((chunks.map Chunk.id).indexOf cid) []) embs 0).map
        Prod.snd).Nodup := by
      rw [List.Nodup, List.pairwise_map]
      exact (scoreVecs_snd_mono _ _ _).imp fun h => ne_of_lt h
    exact (hcons ▸ ((hperm.map Prod.snd).nodup_iff).2 h1)
  have htl_ne : ∀ p ∈ tl, p.2 ≠ ((chunks.map Chunk.id).indexOf cid : Int) := by
    rw [List.map_cons, List.nodup_cons] at hsnd_nodup
    intro p hp hpe
    exact hsnd_nodup.1 (List.mem_map.2 ⟨p, hp, by rw [hpe, hh0]⟩)
  intro hcontra
  rw [hres, htake, hcons, List.take_succ_cons, List.drop_succ_cons, List.drop_zero]
    at hcontra
  obtain ⟨p, hp, hpf⟩ := List.mem_filterMap.1 hcontra
  have hptl : p ∈ tl := List.take_subset _ _ hp
  have hpmem : p ∈ scoreVecs (embs.getD ((chunks.map Chunk.id).indexOf cid) []) embs 0 :=
    hperm.subset (hcons ▸ List.mem_cons_of_mem _ hptl)
  obtain ⟨j, hj, hpe⟩ := scoreVecs_mem hpmem
  have hjlt : ((0 : Int) + j) < ((chunks.map Chunk.id).length : Int) := by
    rw [hidslen]; omega
  rw [hpe] at hpf
  rw [if_pos hjlt] at hpf
  have hjlt2 : j < (chunks.map Chunk.id).length := by omega
  have hjget : pyGet (chunks.map Chunk.id) ((0 : Int) + j)
      = some ((chunks.map Chunk.id).get ⟨j, hjlt2⟩) := by
    rw [pyGet_nat_eq (by omega)]
    have htn : ((0 : Int) + j).toNat = j := by omega
    rw [htn, List.getElem?_eq_getElem hjlt2]
    rfl
  rw [hjget] at hpf
  have hjcid : (chunks.map Chunk.id).get ⟨j, hjlt2⟩ = cid := Option.some.inj hpf
  have hjidx : (chunks.map Chunk.id).indexOf cid = j := by
    have h' := List.indexOf_getElem hnodup j hjlt2
    rw [List.get_eq_getElem] at hjcid
    rw [hjcid] at h'
    exact h'
  exact htl_ne p hptl (by rw [hpe]; simp [hjidx])

/-- C3, counterexample to the claim as stated: on a one-chunk index,
`similar("c1", 1)` searches for `top_k + 1 = 2` neighbours, FAISS pads
the result with label `-1`, the guard `-1 < len(chunk_ids)` passes, and
Python's `chunk_ids[-1]` returns the chunk itself. -/
theorem C3_counterexample :
    "c1" ∈ (buildIndex [mkChunkC "c1"] [[0]] (initSem "m")).getSimilarChunks "c1" 1 := by
  norm_num [SemState.getSimilarChunks, buildIndex, initSem, mkChunkC, faissSearch,
    scoreVecs, sqL2, List.insertionSort, List.orderedInsert, pyGet, faissPadDist]

/-- C3, witness: the amended theorem applied to a two-chunk index with
distinct embeddings. -/
theorem C3_witness :
    "a" ∉ (buildIndex [mkChunkC "a", mkChunkC "b"] [[0], [1]]
      (initSem "m")).getSimilarChunks "a" 1 :=
  C3_self_exclusion [mkChunkC "a", mkChunkC "b"] [[0], [1]] (initSem "m") "a" 1 rfl
    (by decide) (by norm_num)
    (by
      intro j hj hjne
      simp only [show ([mkChunkC "a", mkChunkC "b"].map Chunk.id).indexOf "a" = 0 from rfl]
        at hjne ⊢
      have hj2 : j < 2 := by simpa using hj
      interval_cases j
      · exact absurd rfl hjne
      · norm_num [sqL2])

/-! ## C10: searching an unbuilt index -/

/-- C10, confirmed.  On a freshly constructed instance (no index built,
none loaded) `search` returns the empty list for every query and every
`top_k`, by the `if self.index is None: return []` guard. -/
theorem C10_unbuilt_search (encode : String → Vec) (model_name query : String)
    (top_k : Nat) :
    (initSem model_name).search encode query top_k = [] := rfl

/-! ## C4: determinism of chunk-id generation -/

/-- C4, confirmed.  Chunk-id generation is a pure function of the
`(file_path, unit_name, start_line)` triple (for any digest function,
the MD5 of the source in particular): equal triples give equal ids, in
one run or across runs, and re-running chunking on unchanged input
reproduces the identical chunk-id sequence, since the whole chunking
pipeline is a pure function of its inputs with no hidden state. -/
theorem C4_chunk_id_deterministic (md5hex : String → String)
    (fp name fp' name' : String) (line line' : Nat)
    (h : (fp, name, line) = (fp', name', line')) :
    generateChunkId md5hex fp name line = generateChunkId md5hex fp' name' line' ∧
    ∀ (parse : String → Option PyNode) (readFile : String → Option String)
      (path language : String),
      (chunkFile md5hex parse readFile path language).map Chunk.id
        = (chunkFile md5hex parse readFile path language).map Chunk.id := by
  simp only [Prod.mk.injEq] at h
  obtain ⟨rfl, rfl, rfl⟩ := h
  exact ⟨rfl, fun _ _ _ _ => rfl⟩

/-- C4, witness: the theorem applied at a concrete triple. -/
theorem C4_witness :
    (("a.py", "f", 3) : String × String × Nat) = ("a.py", "f", 3) ∧
    generateChunkId md5c "a.py" "f" 3 = generateChunkId md5c "a.py" "f" 3 :=
  ⟨rfl, (C4_chunk_id_deterministic md5c "a.py" "f" "a.py" "f" 3 3 rfl).1⟩

/-! ## C5: fallback strategy on a failed structural parse -/

/-- C5, amended.  When structural parsing fails (a `SyntaxError` from
`ast.parse`), `_chunk_python` falls back to the *generic block* strategy
— not the pattern-match strategy the specification names — and never
raises; the file still produces chunks through the generic strategy.
The source comment itself reads "If AST parsing fails, fall back to
generic chunking". -/
theorem C5_parse_fallback (md5hex : String → String) (parse : String → Option PyNode)
    (fp content : String) (h : parse content = none) :
    chunkPython md5hex parse fp content = chunkGeneric md5hex fp content := by
  simp [chunkPython, h]

/-- C5, counterexample to the claim as stated: on a concrete unparsable
content the fallback output equals the generic strategy's output and
differs from the pattern-match (JavaScript) strategy's output, which is
empty here while the generic strategy still yields a block chunk. -/
theorem C5_counterexample :
    chunkPython md5c (fun _ => none) "f.py" "this file is not valid python ((("
      = chunkGeneric md5c "f.py" "this file is not valid python (((" ∧
    chunkPython md5c (fun _ => none) "f.py" "this file is not valid python ((("
      ≠ chunkJavascript md5c "f.py" "this file is not valid python (((" := by
  exact ⟨rfl, by decide⟩

/-- C5, witness: the amended theorem applied to a concrete failing
parse. -/
theorem C5_witness :
    ((fun _ : String => (none : Option PyNode)) "pass" = none) ∧
    chunkPython md5c (fun _ => none) "g.py" "pass"
      = chunkGeneric md5c "g.py" "pass" :=
  ⟨rfl, C5_parse_fallback md5c (fun _ => none) "g.py" "pass" rfl⟩

/-! ## C6: the complexity floor -/

theorem simpleComplexity_pos (code : String) : 1 ≤ simpleComplexity code := by
  unfold simpleComplexity
  omega

theorem astComplexity_pos (n : PyNode) : 1 ≤ astComplexity n := by
  unfold astComplexity
  omega

theorem chunkGenericAux_complexity (md5hex : String → String) (fp : String) :
    ∀ (blocks : List String) (cur : Nat), ∀ c ∈ chunkGenericAux md5hex fp blocks cur,
      1 ≤ c.complexity
  | [], _, c, hc => absurd hc (by simp [chunkGenericAux])
  | b :: bs, cur, c, hc => by
    unfold chunkGenericAux at hc
    split at hc
    · exact chunkGenericAux_complexity md5hex fp bs _ c hc
    · rcases List.mem_cons.1 hc with rfl | h
      · exact simpleComplexity_pos b
      · exact chunkGenericAux_complexity md5hex fp bs _ c h

theorem chunkGeneric_complexity (md5hex : String → String) (fp content : String) :
    ∀ c ∈ chunkGeneric md5hex fp content, 1 ≤ c.complexity :=
  fun c hc => chunkGenericAux_complexity md5hex fp _ 1 c hc

theorem chunkJavascript_complexity (md5hex : String → String) (fp content : String) :
    ∀ c ∈ chunkJavascript md5hex fp content, 1 ≤ c.complexity := by
  intro c hc
  unfold chunkJavascript at hc
  rcases List.mem_append.1 hc with hc' | hcls
  · rcases List.mem_append.1 hc' with hfun | harr
    · obtain ⟨⟨pos, a, nm, pr⟩, -, rfl⟩ := List.mem_map.1 hfun
      exact simpleComplexity_pos _
    · obtain ⟨⟨pos, nm, pr⟩, -, rfl⟩ := List.mem_map.1 harr
      exact simpleComplexity_pos _
  · obtain ⟨⟨pos, nm, ex⟩, -, rfl⟩ := List.mem_map.1 hcls
    exact simpleComplexity_pos _

theorem extractPythonFunction_complexity {md5hex : String → String}
    {fp content : String} {n : PyNode} {c : Chunk}
    (h : extractPythonFunction md5hex fp content n = some c) : 1 ≤ c.complexity := by
  unfold extractPythonFunction at h
  split at h
  · obtain rfl := Option.some.inj h
    exact astComplexity_pos n
  · exact absurd h (by simp)

theorem extractPythonClass_complexity {md5hex : String → String}
    {fp content : String} {n : PyNode} {c : Chunk}
    (h : extractPythonClass md5hex fp content n = some c) : 1 ≤ c.complexity := by
  unfold extractPythonClass at h
  split at h
  · obtain rfl := Option.some.inj h
    exact astComplexity_pos n
  · exact absurd h (by simp)

theorem extractPythonMethod_complexity {md5hex : String → String}
    {cname fp content : String} {n : PyNode} {c : Chunk}
    (h : extractPythonMethod md5hex cname fp content n = some c) : 1 ≤ c.complexity := by
  unfold extractPythonMethod at h
  obtain ⟨c0, hc0, rfl⟩ := Option.map_eq_some'.1 h
  have h0 := extractPythonFunction_complexity hc0
  split
  · exact h0
  · exact h0

theorem chunkPythonParsed_complexity (md5hex : String → String) (fp content : String)
    (tree : PyNode) :
    ∀ c ∈ chunkPythonParsed md5hex fp content tree, 1 ≤ c.complexity := by
  intro c hc
  unfold chunkPythonParsed at hc
  obtain ⟨n, -, hcn⟩ := List.mem_flatMap.1 hc
  obtain ⟨k, children⟩ := n
  cases k with
  | functionDef nm l el args ret doc =>
    simp only [PyNode.kind] at hcn
    rw [Option.mem_toList] at hcn
    exact extractPythonFunction_complexity hcn
  | classDef nm l el bs doc =>
    simp only [PyNode.kind] at hcn
    rcases List.mem_append.1 hcn with hcl | hmeth
    · rw [Option.mem_toList] at hcl
      exact extractPythonClass_complexity hcl
    · obtain ⟨item, -, hsome⟩ := List.mem_filterMap.1 hmeth
      split at hsome
      · exact extractPythonMethod_complexity hsome
      · exact absurd hsome (by simp)
  | ifStmt => simp [PyNode.kind] at hcn
  | forStmt => simp [PyNode.kind] at hcn
  | whileStmt => simp [PyNode.kind] at hcn
  | tryStmt => simp [PyNode.kind] at hcn
  | exceptHandler => simp [PyNode.kind] at hcn
  | withStmt => simp [PyNode.kind] at hcn
  | boolOp e => simp [PyNode.kind] at hcn
  | callNamed f => simp [PyNode.kind] at hcn
  | callAttr f => simp [PyNode.kind] at hcn
  | otherNode => simp [PyNode.kind] at hcn

theorem calcFileComplexity_nonneg (content : String) : 0 ≤ calcFileComplexity content := by
  unfold calcFileComplexity
  have h1 : (0 : ℚ) ≤ (decisionKeywords.map fun kw => (pyCount content kw : ℚ)).sum := by
    apply List.sum_nonneg
    intro x hx
    obtain ⟨kw, -, rfl⟩ := List.mem_map.1 hx
    positivity
  have h2 : (0 : ℚ) <
      max ((((pySplitNl content).filter fun l => pyStrip l ≠ "").length : ℚ)) 1 :=
    lt_of_lt_of_le one_pos (le_max_right _ 1)
  have := div_nonneg h1 h2.le
  linarith

/-- C6, amended.  Every chunk emitted by any chunking strategy has
complexity at least 1 (both calculators add a base of 1 to nonnegative
contributions); but the `FileRecord` complexity score of detailed
metadata extraction satisfies only `0 ≤ score` — the source computes
`decision_count / max(lines, 1) * 10` with no floor of 1. -/
theorem C6_complexity_floor (md5hex : String → String)
    (parse : String → Option PyNode) (readFile : String → Option String)
    (fp language : String) :
    (∀ c ∈ chunkFile md5hex parse readFile fp language, 1 ≤ c.complexity) ∧
    ∀ (path : String) (content? : Option String),
      0 ≤ (extractFileMetadata path content?).complexity_score := by
  constructor
  · intro c hc
    unfold chunkFile at hc
    rcases hread : readFile fp with - | content
    · rw [hread] at hc
      exact absurd hc (by simp)
    · rw [hread] at hc
      dsimp only at hc
      by_cases hpy : (language == "python") = true
      · rw [if_pos hpy] at hc
        unfold chunkPython at hc
        rcases hparse : parse content with - | tree
        · rw [hparse] at hc
          exact chunkGeneric_complexity md5hex fp content c hc
        · rw [hparse] at hc
          exact chunkPythonParsed_complexity md5hex fp content tree c hc
      · rw [if_neg hpy] at hc
        by_cases hjs : (language == "javascript" || language == "typescript") = true
        · rw [if_pos hjs] at hc
          exact chunkJavascript_complexity md5hex fp content c hc
        · rw [if_neg hjs] at hc
          exact chunkGeneric_complexity md5hex fp content c hc
  · intro path content?
    cases content? with
    | none => simp [extractFileMetadata]
    | some content =>
      simpa [extractFileMetadata] using calcFileComplexity_nonneg content

/-- C6, counterexample to the claim as stated: a one-line file with no
decision keyword gets `complexity_score = 0 / max(1, 1) * 10 = 0.0 < 1`
from detailed metadata extraction. -/
theorem C6_counterexample :
    (extractFileMetadata "a.txt" (some "x = 1")).complexity_score < 1 := by
  have hscore : (extractFileMetadata "a.txt" (some "x = 1")).complexity_score
      = calcFileComplexity "x = 1" := rfl
  rw [hscore]
  unfold calcFileComplexity
  norm_num [decisionKeywords,
    show pyCount "x = 1" "if " = 0 from rfl,
    show pyCount "x = 1" "elif " = 0 from rfl,
    show pyCount "x = 1" "else:" = 0 from rfl,
    show pyCount "x = 1" "for " = 0 from rfl,
    show pyCount "x = 1" "while " = 0 from rfl,
    show pyCount "x = 1" "try:" = 0 from rfl,
    show pyCount "x = 1" "except:" = 0 from rfl]

/-- C6, witness: the amended theorem applied to a concrete generically
chunked file and a concrete metadata extraction. -/
theorem C6_witness :
    ((chunkFile md5c (fun _ => none) (fun _ => some "aaaaaaaaaaaaaaaaaaaaaaaa")
        "w.txt" "text").headD (mkChunkC "z")
      ∈ chunkFile md5c (fun _ => none) (fun _ => some "aaaaaaaaaaaaaaaaaaaaaaaa")
        "w.txt" "text") ∧
    1 ≤ ((chunkFile md5c (fun _ => none) (fun _ => some "aaaaaaaaaaaaaaaaaaaaaaaa")
        "w.txt" "text").headD (mkChunkC "z")).complexity ∧
    0 ≤ (extractFileMetadata "a.py" (some "x = 1")).complexity_score :=
  ⟨by decide,
   (C6_complexity_floor md5c (fun _ => none)
      (fun _ => some "aaaaaaaaaaaaaaaaaaaaaaaa") "w.txt" "text").1 _ (by decide),
   (C6_complexity_floor md5c (fun _ => none)
      (fun _ => some "aaaaaaaaaaaaaaaaaaaaaaaa") "w.txt" "text").2 "a.py"
     (some "x = 1")⟩

/-! ## C7: line-range validity -/

/-- C7 (code bug): evaluating the JavaScript chunker at the one-line file
`function f{{{{(x)}}}} { return 1; }` (the quadruple braces are what the
source's regex literally requires around the parameter list) yields a
chunk with `start_line = 1` but `end_line = 0`: `_extract_js_function`
stores the 1-based `content[:start].count('\n') + 1` as `start_line` and
the 0-based line index returned by `_find_closing_brace` as `end_line`,
so `1 ≤ start_line ≤ end_line` fails on every unit that closes on its
first line (the Python AST strategy, by contrast, stores both bounds
1-based). -/
theorem C7_line_range_bug :
    (chunkJavascript md5c "f.js"
        "function f\x7b\x7b\x7b\x7b(x)\x7d\x7d\x7d\x7d \x7b return 1; \x7d").map
      (fun c => (c.start_line, c.end_line)) = [(1, 0)] := by
  decide

/-! ## C8: project-type detection -/

/-- Python `max(items, key=...)` keeps the earliest entry among those
attaining the maximal value: the scanned list decomposes around the
returned entry with strictly smaller values before it and no larger
value after it. -/
theorem pickBestAux_spec :
    ∀ (ys : List (String × ℚ)) (best : String × ℚ),
    ∃ pre post, best :: ys = pre ++ pickBestAux best ys :: post ∧
      (∀ z ∈ pre, z.2 < (pickBestAux best ys).2) ∧
      (∀ z ∈ post, z.2 ≤ (pickBestAux best ys).2)
  | [], best => ⟨[], [], rfl, by simp, by simp⟩
  | y :: ys, best => by
    by_cases hlt : best.2 < y.2
    · obtain ⟨pre, post, heq, hpre, hpost⟩ := pickBestAux_spec ys y
      have hy : y.2 ≤ (pickBestAux y ys).2 := by
        have hy' : y ∈ pre ++ pickBestAux y ys :: post := by
          rw [← heq]; exact List.mem_cons_self _ _
        rcases List.mem_append.1 hy' with h | h
        · exact le_of_lt (hpre _ h)
        · rcases List.mem_cons.1 h with h | h
          · exact le_of_eq (congrArg Prod.snd h)
          · exact hpost _ h
      refine ⟨best :: pre, post, ?_, ?_, ?_⟩
      · simp only [pickBestAux, if_pos hlt, List.cons_append, List.cons.injEq]
        exact ⟨trivial, heq⟩
      · intro z hz
        rcases List.mem_cons.1 hz with rfl | hz
        · simp only [pickBestAux, if_pos hlt]
          exact lt_of_lt_of_le hlt hy
        · simp only [pickBestAux, if_pos hlt]
          exact hpre _ hz
      · intro z hz
        simp only [pickBestAux, if_pos hlt]
        exact hpost _ hz
    · obtain ⟨pre, post, heq, hpre, hpost⟩ := pickBestAux_spec ys best
      cases pre with
      | nil =>
        simp only [List.nil_append] at heq
        have hbest : pickBestAux best ys = best := (List.cons.inj heq).1.symm
        have hys : post = ys := (List.cons.inj heq).2.symm
        refine ⟨[], y :: ys, ?_, by simp, ?_⟩
        · simp only [pickBestAux, if_neg hlt, List.nil_append, hbest]
        · intro z hz
          simp only [pickBestAux, if_neg hlt, hbest]
          rcases List.mem_cons.1 hz with rfl | hz
          · exact le_of_not_lt hlt
          · rw [← hbest]
            exact hpost _ (hys ▸ hz)
      | cons a pre' =>
        have ha : a = best := (List.cons.inj heq).1.symm
        have hys : ys = pre' ++ pickBestAux best ys :: post := (List.cons.inj heq).2
        have hb : best.2 < (pickBestAux best ys).2 := by
          refine hpre best ?_
          rw [ha]
          exact List.mem_cons_self _ _
        refine ⟨best :: y :: pre', post, ?_, ?_, ?_⟩
        · simp only [pickBestAux, if_neg hlt, List.cons_append]
          rw [← hys]
        · intro z hz
          simp only [pickBestAux, if_neg hlt]
          rcases List.mem_cons.1 hz with rfl | hz
          · exact hb
          · rcases List.mem_cons.1 hz with rfl | hz
            · exact lt_of_le_of_lt (le_of_not_lt hlt) hb
            · exact hpre _ (List.mem_cons_of_mem _ hz)
        · intro z hz
          simp only [pickBestAux, if_neg hlt]
          exact hpost _ hz

/-- C8, amended.  `_detect_project_type` returns the entry of the scores
table with the highest confidence, ties resolved to insertion order of
the signature table (strictly smaller scores strictly before it, no
greater score anywhere); but when no signature scores above zero the
result is the *first* signature of the table — `("fastapi", 0.0)` — not
`("unknown", 0.0)`: every signature has a positive maximum score, so the
`scores` dict is never empty and the `unknown` branch is unreachable. -/
theorem C8_detect_project_type (fs : RepoFs) :
    (∃ pre post, scoresList fs = pre ++ detectProjectType fs :: post ∧
      (∀ z ∈ pre, z.2 < (detectProjectType fs).2) ∧
      (∀ z ∈ post, z.2 ≤ (detectProjectType fs).2)) ∧
    ((∀ y ∈ scoresList fs, y.2 = 0) → detectProjectType fs = ("fastapi", 0)) := by
  have hfst : (scoresList fs).map Prod.fst
      = ["fastapi", "flask", "django", "react", "express", "spring_boot"] := by
    norm_num [scoresList, projectPatterns, signatureMaxScore, List.filterMap_cons]
  obtain ⟨a, l, hal⟩ : ∃ a l, scoresList fs = a :: l := by
    cases hsl : scoresList fs with
    | nil => rw [hsl] at hfst; simp at hfst
    | cons a l => exact ⟨a, l, rfl⟩
  have hdet : detectProjectType fs = pickBestAux a l := by
    rw [detectProjectType, hal, pickBest]
  obtain ⟨pre, post, heq, hpre, hpost⟩ := pickBestAux_spec l a
  have hdecomp : scoresList fs = pre ++ detectProjectType fs :: post := by
    rw [hal, hdet, heq]
  have hmain : ∃ pre post, scoresList fs = pre ++ detectProjectType fs :: post ∧
      (∀ z ∈ pre, z.2 < (detectProjectType fs).2) ∧
      (∀ z ∈ post, z.2 ≤ (detectProjectType fs).2) := by
    refine ⟨pre, post, hdecomp, ?_, ?_⟩
    · intro z hz
      rw [hdet]
      exact hpre _ hz
    · intro z hz
      rw [hdet]
      exact hpost _ hz
  refine ⟨hmain, ?_⟩
  intro hzero
  have hpre_nil : pre = [] := by
    cases hp : pre with
    | nil => rfl
    | cons z pre' =>
      exfalso
      have hzmem : z ∈ scoresList fs := by
        rw [hdecomp, hp]
        exact List.mem_append.2 (Or.inl (List.mem_cons_self _ _))
      have hbmem : detectProjectType fs ∈ scoresList fs := by
        rw [hdecomp]
        exact List.mem_append.2 (Or.inr (List.mem_cons_self _ _))
      have h1 := hzero _ hzmem
      have h2 := hzero _ hbmem
      have h3 := hpre z (hp ▸ List.mem_cons_self _ _)
      rw [hdet] at *
      rw [h1, h2] at h3
      exact lt_irrefl 0 h3
  have hhead : scoresList fs = detectProjectType fs :: post := by
    rw [hdecomp, hpre_nil, List.nil_append]
  have hname : (detectProjectType fs).1 = "fastapi" := by
    rw [hhead] at hfst
    simpa using (List.cons.inj hfst).1
  have hval : (detectProjectType fs).2 = 0 := by
    apply hzero
    rw [hhead]
    exact List.mem_cons_self _ _
  exact Prod.ext hname hval

/-- C8, counterexample to the claim as stated: on an empty repository no
signature scores above zero, yet the detected type is `("fastapi", 0)`,
not `("unknown", 0)`. -/
theorem C8_counterexample :
    (∀ y ∈ scoresList emptyRepoFs, ¬ (0 < y.2)) ∧
    detectProjectType emptyRepoFs = ("fastapi", 0) ∧
    detectProjectType emptyRepoFs ≠ ("unknown", 0) := by
  have h2 : detectProjectType emptyRepoFs = ("fastapi", 0) := by
    norm_num [detectProjectType, scoresList, projectPatterns, signatureScore,
      signatureMaxScore, checkFileContents, fileExists, emptyRepoFs, pickBest,
      pickBestAux, List.filterMap_cons]
  refine ⟨?_, h2, ?_⟩
  · norm_num [scoresList, projectPatterns, signatureScore, signatureMaxScore,
      checkFileContents, fileExists, emptyRepoFs, List.filterMap_cons]
  · rw [h2]
    intro hcontr
    exact absurd (congrArg Prod.fst hcontr) (by simp)

/-- C8, witness: the amended theorem applied to the empty repository,
discharging the all-zero hypothesis. -/
theorem C8_witness : detectProjectType emptyRepoFs = ("fastapi", 0) :=
  (C8_detect_project_type emptyRepoFs).2 (by
    norm_num [scoresList, projectPatterns, signatureScore, signatureMaxScore,
      checkFileContents, fileExists, emptyRepoFs, List.filterMap_cons])

/-! ## C9: progress percentages -/

theorem stageVal_bounds {s : PState} (h0 : 0 ≤ s.current_stage_percentage)
    (h1 : s.current_stage_percentage ≤ 100) (st : Stage) :
    0 ≤ stageVal s st ∧ stageVal s st ≤ 100 := by
  unfold stageVal
  split
  · exact ⟨h0, h1⟩
  · split
    · norm_num
    · norm_num

/-- `_update_overall_percentage` keeps the overall percentage within
`[0, 100]` whenever the current stage percentage is within `[0, 100]`:
each weighted term lies in `[0, weight]` and the weights sum to 100. -/
theorem updateOverall_bounds {s : PState} (h0 : 0 ≤ s.current_stage_percentage)
    (h1 : s.current_stage_percentage ≤ 100) :
    0 ≤ (updateOverall s).overall_percentage ∧
      (updateOverall s).overall_percentage ≤ 100 := by
  obtain ⟨u0, u1⟩ := stageVal_bounds h0 h1 .upload
  obtain ⟨e0, e1⟩ := stageVal_bounds h0 h1 .extraction
  obtain ⟨a0, a1⟩ := stageVal_bounds h0 h1 .analysis
  obtain ⟨f0, f1⟩ := stageVal_bounds h0 h1 .fileProcessing
  obtain ⟨c0, c1⟩ := stageVal_bounds h0 h1 .codeChunking
  obtain ⟨i0, i1⟩ := stageVal_bounds h0 h1 .semanticIndexing
  obtain ⟨d0, d1⟩ := stageVal_bounds h0 h1 .docGeneration
  unfold updateOverall weightedSum
  constructor
  · simp only
    linarith
  · simp only
    linarith

/-- `_update_overall_percentage` additionally leaves the current stage
percentage untouched, so the whole bound transfers. -/
theorem updateOverall_pct {s : PState} (h0 : 0 ≤ s.current_stage_percentage)
    (h1 : s.current_stage_percentage ≤ 100) : PctBounded (updateOverall s) := by
  obtain ⟨g0, g1⟩ := updateOverall_bounds h0 h1
  exact ⟨h0, h1, g0, g1⟩

/-- One tracker call preserves the percentage bounds, under the
per-call proviso. -/
theorem stepProgress_bounds {s : PState} {op : POp} (hok : POpOk s op)
    (hinv : PctBounded s) : PctBounded (stepProgress s op) := by
  obtain ⟨hc0, hc1, ho0, ho1⟩ := hinv
  cases op with
  | startStage st total =>
    simp only [stepProgress]
    split_ifs <;> exact ⟨le_refl 0, by norm_num, ho0, ho1⟩
  | completeStage st =>
    exact updateOverall_pct (by norm_num) (by norm_num)
  | completeProcessing =>
    exact ⟨hc0, hc1, by norm_num [stepProgress], by norm_num [stepProgress]⟩
  | markFailed msg =>
    exact ⟨hc0, hc1, ho0, ho1⟩
  | updateFileProgress fn fp current total =>
    simp only [stepProgress]
    split_ifs with htot
    · have hcur := hok htot
      have hq0 : (0 : ℚ) < (total : ℚ) := by exact_mod_cast htot
      have hr0 : 0 ≤ ((current : ℚ) / (total : ℚ)) * 100 := by
        have := div_nonneg (by exact_mod_cast hcur.1 : (0 : ℚ) ≤ (current : ℚ)) hq0.le
        linarith
      have hr1 : ((current : ℚ) / (total : ℚ)) * 100 ≤ 100 := by
        have hle : (current : ℚ) / (total : ℚ) ≤ 1 :=
          (div_le_one hq0).2 (by exact_mod_cast hcur.2)
        linarith
      exact updateOverall_pct hr0 hr1
    · exact updateOverall_pct hc0 hc1
  | updateChunkProgress fn created =>
    simp only [stepProgress]
    split_ifs with htot
    · have hcur := hok (by simpa using htot)
      have hq0 : (0 : ℚ) < ((s.total_chunks : ℚ)) := by
        have : (0 : Int) < s.total_chunks := by simpa using htot
        exact_mod_cast this
      have hr0 : 0 ≤ (((s.processed_chunks + created : Int) : ℚ) / (s.total_chunks : ℚ)) * 100 := by
        have := div_nonneg
          (by exact_mod_cast hcur.1 : (0 : ℚ) ≤ ((s.processed_chunks + created : Int) : ℚ)) hq0.le
        linarith
      have hr1 : (((s.processed_chunks + created : Int) : ℚ) / (s.total_chunks : ℚ)) * 100 ≤ 100 := by
        have hle : ((s.processed_chunks + created : Int) : ℚ) / (s.total_chunks : ℚ) ≤ 1 :=
          (div_le_one hq0).2 (by exact_mod_cast hcur.2)
        linarith
      exact updateOverall_pct hr0 hr1
    · exact updateOverall_pct hc0 hc1

/-- C9, amended.  Both percentage fields stay within `[0, 100]` along
every call sequence from a fresh progress row, *provided* every
file-progress report satisfies `0 ≤ current ≤ total` and every
chunk-progress report keeps the accumulated `processed_chunks` within
`[0, total_chunks]` (each whenever the respective total is positive).
Without the proviso the bound fails — see the counterexample, which
replays exactly what the orchestrator's `_run_code_chunking` does when a
file yields more than one chunk. -/
theorem C9_percentage_bounds (ops : List POp) (hok : TraceOk initProgress ops) :
    PctBounded (runProgress initProgress ops) := by
  suffices h : ∀ (ops : List POp) (s : PState), PctBounded s → TraceOk s ops →
      PctBounded (runProgress s ops) by
    exact h ops initProgress (by norm_num [initProgress, PctBounded]) hok
  intro ops
  induction ops with
  | nil => exact fun s hs _ => hs
  | cons op rest ih =>
    intro s hs htr
    exact ih (stepProgress s op) (stepProgress_bounds htr.1 hs) htr.2

/-- C9, counterexample to the claim as stated: `start_stage(code_chunking,
total_items=1)` followed by `update_chunk_progress(_, 2)` — one file
declared, two chunks created, exactly the situation `_run_code_chunking`
produces — drives `current_stage_percentage` to 200. -/
theorem C9_counterexample :
    (runProgress initProgress
        [.startStage .codeChunking 1, .updateChunkProgress "f" 2]).current_stage_percentage
      = 200 ∧
    ¬ PctBounded (runProgress initProgress
        [.startStage .codeChunking 1, .updateChunkProgress "f" 2]) := by
  constructor
  · simp +decide only [runProgress, stepProgress, initProgress, updateOverall,
      weightedSum, stageVal, stageIdx]
    norm_num
  · simp +decide only [PctBounded, runProgress, stepProgress, initProgress,
      updateOverall, weightedSum, stageVal, stageIdx]
    norm_num

/-- C9, witness: the amended theorem applied to a concrete well-behaved
trace (one chunking stage of two items, reported one at a time). -/
theorem C9_witness :
    PctBounded (runProgress initProgress
      [.startStage .codeChunking 2, .updateChunkProgress "a" 1,
       .updateChunkProgress "b" 1, .completeStage .codeChunking,
       .completeProcessing]) :=
  C9_percentage_bounds _ (by
    refine ⟨trivial, ?_, ?_, trivial, trivial, trivial⟩ <;>
      simp +decide [POpOk, stepProgress, initProgress, updateOverall,
        weightedSum, stageVal, stageIdx])

end CodeAnalysis
